import Mathlib

/-!
Shallow embedding of the `dns-server` repository's core (store, resolver,
control API, DoH adapter) and proofs about it.

Modelling conventions:
* Go strings are modelled as Lean `String` (a list of characters).  `ToLower`,
  `ToUpper` and `TrimSpace` are modelled on the ASCII subset (the repository
  only ever feeds DNS names and type tags through them).
* Go maps (`store.records`, `store.zones`) are modelled as association lists
  `List (String × _)`.  Go's map iteration order is unspecified, so theorems
  about iteration-dependent behaviour quantify over the list order, and
  counterexamples exhibit a concrete order.
* Machine integers: `version` (Go `int64`) is `Int`; `serial`, `ttl`,
  `priority` (`uint32`/`uint16`) are `Nat` (no arithmetic in the embedded code
  can overflow them — they are only compared and copied).
* `time.Now()` values are passed in as explicit parameters.
-/

namespace DnsSrv

/-! ### Go string helpers (`strings` package subset used by the code) -/

/-- `unicode.IsSpace` on the characters that can actually occur in the
API inputs (ASCII whitespace plus NEL/NBSP, as in Go's Latin-1 fast path). -/
def goSpace (c : Char) : Bool :=
  c = ' ' || c = '\t' || c = '\n' || c = '\x0B' || c = '\x0C' || c = '\r' ||
  c = '\x85' || c = '\xA0'

/-- `strings.TrimSpace` (drop leading and trailing whitespace). -/
def goTrimSpace (s : String) : String :=
  ⟨((s.data.dropWhile goSpace).reverse.dropWhile goSpace).reverse⟩

/-- ASCII case-fold of a single character, as Go's `strings.ToLower` acts on
the ASCII range (the only range exercised by DNS names in this codebase). -/
def goLowerChar (c : Char) : Char :=
  if 65 ≤ c.toNat ∧ c.toNat ≤ 90 then Char.ofNat (c.toNat + 32) else c

/-- ASCII upcase of a single character (Go `strings.ToUpper` on ASCII). -/
def goUpperChar (c : Char) : Char :=
  if 97 ≤ c.toNat ∧ c.toNat ≤ 122 then Char.ofNat (c.toNat - 32) else c

/-- `strings.ToLower` (ASCII model). -/
def goToLower (s : String) : String := ⟨s.data.map goLowerChar⟩

/-- `strings.ToUpper` (ASCII model). -/
def goToUpper (s : String) : String := ⟨s.data.map goUpperChar⟩

/-- Split at every occurrence of a separator character (the structural
`strings.Split` used for `.` and `:`). -/
def splitOnChar (sep : Char) : List Char → List (List Char)
  | [] => [[]]
  | c :: rest =>
    match splitOnChar sep rest with
    | [] => [[]]
    | h :: t => if c = sep then [] :: h :: t else (c :: h) :: t

/-- `strings.Split s sep` for a one-character separator. -/
def goSplitOn (sep : Char) (s : String) : List String :=
  (splitOnChar sep s.data).map (fun cs => ⟨cs⟩)

/-- Split at every (non-overlapping, leftmost) occurrence of `"::"`. -/
def splitOnColonColon : List Char → List (List Char)
  | [] => [[]]
  | ':' :: ':' :: rest =>
    match splitOnColonColon rest with
    | [] => [[]]
    | parts => [] :: parts
  | c :: rest =>
    match splitOnColonColon rest with
    | [] => [[]]
    | h :: t => (c :: h) :: t

/-- `strings.Split s "::"` as the IPv6 parser uses it. -/
def goSplitOnColonColon (s : String) : List String :=
  (splitOnColonColon s.data).map (fun cs => ⟨cs⟩)

/-- Structural `strings.Join` / `String.intercalate`. -/
def goIntercalate (sep : String) : List String → String
  | [] => ""
  | [x] => x
  | x :: rest => x ++ sep ++ goIntercalate sep rest

/-- Structural lexicographic comparison of character lists (the shape of
`List.lt`, hence of `String.<`; Go compares strings the same way). -/
def charListLt : List Char → List Char → Bool
  | [], [] => false
  | [], _ :: _ => true
  | _ :: _, [] => false
  | a :: as, b :: bs =>
    if a < b then true else if b < a then false else charListLt as bs

/-- Go's `<` on strings (bytewise lexicographic; on the UTF-8 strings of
this development equal to code-point order). -/
def goStringLt (a b : String) : Bool := charListLt a.data b.data

/-! ### miekg/dns name helpers used by the code -/

/-- Does the name end in an unescaped dot?  This is `dns.IsFqdn`: a trailing
dot preceded by an even number of backslashes. -/
def isFqdn (s : String) : Bool :=
  match s.data.reverse with
  | '.' :: rest => (rest.takeWhile (· = '\\')).length % 2 = 0
  | _ => false

/-- `dns.Fqdn`: append a trailing dot unless the name is already fully
qualified. -/
def fqdn (s : String) : String := if isFqdn s then s else s ++ "."

/-- `normalizeName` from the repository: lowercase, trim, empty becomes the
root, then FQDN-terminate. -/
def normalizeName (name : String) : String :=
  let name := goTrimSpace (goToLower name)
  if name = "" then "." else fqdn name

/-- `normalizeNames`: normalize each entry, dropping entries that collapse to
the bare root. -/
def normalizeNames (l : List String) : List String :=
  (l.map normalizeName).filter (· ≠ ".")

/-- `normalizeRecordType`: upper-case/trim and coerce anything that is not one
of `AAAA`/`TXT`/`CNAME`/`MX` to `A`. -/
def normalizeRecordType (recordType : String) : String :=
  let recordType := goToUpper (goTrimSpace recordType)
  if recordType = "AAAA" ∨ recordType = "TXT" ∨ recordType = "CNAME" ∨
      recordType = "MX" then recordType
  else "A"

/-- Labels of a DNS name: the dot-separated components, without the root.
(Escaped dots do not occur in this development; interior empty labels are
dropped.)  `dns.CountLabel` is the length of this list, and lower-casing
mirrors the case-insensitive comparison of `dns.CompareDomainName`. -/
def dnsLabels (s : String) : List String :=
  (goSplitOn '.' (goToLower s)).filter (· ≠ "")

/-- `dns.CountLabel`. -/
def countLabel (s : String) : Nat := (dnsLabels s).length

/-- `dns.IsSubDomain parent child`: every label of `parent` is a common
suffix label of `child`. -/
def isSubDomain (parent child : String) : Bool :=
  decide (dnsLabels parent <:+ dnsLabels child)

/-- `dns.SplitDomainName`: the labels without the trailing root dot; `nil`
for the root and the empty name. -/
def splitDomainName (s : String) : List String :=
  if s = "" ∨ s = "." then []
  else goSplitOn '.' (if isFqdn s then ⟨s.data.dropLast⟩ else s)

/-! ### Go `net.ParseIP` model

IPs are 16-byte lists (`List Nat`, entries < 256); a parsed IPv4 literal is
stored in IPv4-in-IPv6 mapped form, exactly as `net.ParseIP` does, so that
`To4` distinguishes the two families. -/

/-- The `::ffff:` prefix that marks an IPv4-mapped address. -/
def v4InV6Prefix : List Nat := [0, 0, 0, 0, 0, 0, 0, 0, 0, 0, 255, 255]

/-- One dotted-decimal IPv4 field: 1–3 digits, value ≤ 255, no leading zero
(Go rejects leading zeros in IPv4 fields). -/
def parseV4Field (cs : List Char) : Option Nat :=
  if cs = [] then none
  else if cs.length > 3 then none
  else if cs.any (fun c => ¬ ('0' ≤ c ∧ c ≤ '9')) then none
  else if cs.length > 1 ∧ cs.head? = some '0' then none
  else
    let n := cs.foldl (fun acc c => acc * 10 + (c.toNat - 48)) 0
    if n > 255 then none else some n

/-- Four dotted-decimal fields → 4 bytes. -/
def parseV4Bytes (s : String) : Option (List Nat) :=
  let fields := goSplitOn '.' s
  if fields.length = 4 then fields.mapM (fun f => parseV4Field f.data) else none

/-- `net.ParseIP` on a literal containing a dot first: IPv4, in mapped form. -/
def parseV4 (s : String) : Option (List Nat) :=
  (parseV4Bytes s).map (v4InV6Prefix ++ ·)

/-- Hex digit value. -/
def hexVal (c : Char) : Option Nat :=
  if '0' ≤ c ∧ c ≤ '9' then some (c.toNat - 48)
  else if 'a' ≤ c ∧ c ≤ 'f' then some (c.toNat - 87)
  else if 'A' ≤ c ∧ c ≤ 'F' then some (c.toNat - 55)
  else none

/-- One IPv6 group: 1–4 hex digits → a 16-bit value as two bytes. -/
def parseHexGroup (cs : List Char) : Option (List Nat) :=
  if cs = [] ∨ cs.length > 4 then none
  else
    (cs.mapM hexVal).map fun ds =>
      let n := ds.foldl (fun acc d => acc * 16 + d) 0
      [n / 256, n % 256]

/-- Colon-separated groups → bytes; the final group of the address may be an
embedded dotted IPv4 (4 bytes) when `v4Tail` is set. -/
def parseV6Groups (gs : List String) (v4Tail : Bool) : Option (List Nat) :=
  match gs with
  | [] => some []
  | [g] =>
    if v4Tail ∧ g.data.contains '.' then parseV4Bytes g
    else parseHexGroup g.data
  | g :: rest =>
    match parseHexGroup g.data, parseV6Groups rest v4Tail with
    | some b, some bs => some (b ++ bs)
    | _, _ => none

/-- `net.ParseIP` on a literal containing a colon first: IPv6 with at most one
`::`, each group 1–4 hex digits, an optional embedded IPv4 tail, expanding to
exactly 16 bytes (`::` must stand for at least one zero group). -/
def parseV6 (s : String) : Option (List Nat) :=
  if s.data.contains '%' then none
  else
    match goSplitOnColonColon s with
    | [one] =>
      match parseV6Groups (goSplitOn ':' one) true with
      | some bs => if bs.length = 16 then some bs else none
      | none => none
    | [l, r] =>
      let lg := if l = "" then [] else goSplitOn ':' l
      let rg := if r = "" then [] else goSplitOn ':' r
      match parseV6Groups lg false, parseV6Groups rg true with
      | some lb, some rb =>
        if lb.length + rb.length < 16 then
          some (lb ++ List.replicate (16 - lb.length - rb.length) 0 ++ rb)
        else none
      | _, _ => none
    | _ => none

/-- `net.ParseIP`: the first `.` or `:` decides the family; anything else is
not an IP literal. -/
def parseIP (s : String) : Option (List Nat) :=
  match s.data.find? (fun c => c = '.' ∨ c = ':') with
  | some '.' => parseV4 s
  | some ':' => parseV6 s
  | _ => none

/-- `IP.To4`: the 4 IPv4 bytes when the address is IPv4-mapped, else `none`. -/
def to4 (ip : List Nat) : Option (List Nat) :=
  if ip.length = 16 ∧ ip.take 12 = v4InV6Prefix then some (ip.drop 12) else none

/-- Decimal string of a byte. -/
def natToString (n : Nat) : String := toString n

/-- Lower-case hex string of a 16-bit group, no leading zeros. -/
def hexGroupString (n : Nat) : String :=
  let digits := "0123456789abcdef".data
  let rec go (fuel n : Nat) (acc : List Char) : List Char :=
    match fuel with
    | 0 => acc
    | fuel + 1 =>
      if n = 0 then acc
      else go fuel (n / 16) (digits.getD (n % 16) '0' :: acc)
  if n = 0 then "0" else ⟨go 4 n []⟩

/-- The eight 16-bit groups of a 16-byte address. -/
def v6Groups (ip : List Nat) : List Nat :=
  match ip with
  | a :: b :: rest => (a * 256 + b) :: v6Groups rest
  | _ => []

/-- Best run of ≥ 2 consecutive zero groups (first longest), as Go's
`IP.String` chooses for `::` compression: returns `(start, len)` or `none`. -/
def bestZeroRun (gs : List Nat) : Option (Nat × Nat) :=
  let runLenAt (i : Nat) : Nat := ((gs.drop i).takeWhile (· = 0)).length
  let cands := (List.range gs.length).map (fun i => (i, runLenAt i))
  let best := cands.foldl (fun acc (c : Nat × Nat) =>
    match acc with
    | none => if c.2 > 1 then some c else none
    | some b => if c.2 > b.2 then some c else acc) none
  best

/-- Go `IP.String` for a non-mapped 16-byte address (RFC 5952 style). -/
def v6String (ip : List Nat) : String :=
  let gs := v6Groups ip
  match bestZeroRun gs with
  | none => goIntercalate ":" (gs.map hexGroupString)
  | some (s, l) =>
    let pre := (gs.take s).map hexGroupString
    let post := (gs.drop (s + l)).map hexGroupString
    goIntercalate ":" pre ++ "::" ++ goIntercalate ":" post

/-- Go `IP.String`: dotted quad for (mapped) IPv4, RFC 5952 text for IPv6. -/
def ipString (ip : List Nat) : String :=
  match to4 ip with
  | some [a, b, c, d] =>
    natToString a ++ "." ++ natToString b ++ "." ++ natToString c ++ "." ++
      natToString d
  | _ => v6String ip

/-! ### Data model (`aRecord`, `zoneConfig`, `store`) -/

/-- `aRecord` (the Go field `Type` is spelled `rtype` here; `Type` is a Lean
keyword).  `UpdatedAt` is a Unix-nano instant. -/
structure ARecord where
  Name : String := ""
  rtype : String := ""
  IP : String := ""
  Text : String := ""
  Target : String := ""
  Priority : Nat := 0
  TTL : Nat := 0
  Zone : String := ""
  UpdatedAt : Int := 0
  Version : Int := 0
  Source : String := ""
  deriving DecidableEq, Repr

/-- `zoneConfig`. -/
structure ZoneConfig where
  Zone : String := ""
  NS : List String := []
  SOATTL : Nat := 0
  Serial : Nat := 0
  UpdatedAt : Int := 0
  deriving DecidableEq, Repr

/-- The in-memory `store`.  Go's maps are association lists here; the list
order stands for the (unspecified) map iteration order, so theorems about
order-sensitive behaviour quantify over it. -/
structure Store where
  records : List (String × ARecord) := []
  zones : List (String × ZoneConfig) := []
  deriving DecidableEq, Repr

/-- Go map read `m[k]`. -/
def lookupA {α : Type} (k : String) (l : List (String × α)) : Option α :=
  (l.find? (fun e => e.1 = k)).map (·.2)

/-- Go map write `m[k] = v`: replace the entry at `k`, else append. -/
def setA {α : Type} (l : List (String × α)) (k : String) (v : α) :
    List (String × α) :=
  match l with
  | [] => [(k, v)]
  | (k', v') :: t => if k' = k then (k, v) :: t else (k', v') :: setA t k v

/-- `recordKey`: `name|type|value-fingerprint`. -/
def recordKey (rec : ARecord) : String :=
  let val :=
    if rec.rtype = "A" ∨ rec.rtype = "AAAA" then goToLower (goTrimSpace rec.IP)
    else if rec.rtype = "TXT" then rec.Text
    else if rec.rtype = "CNAME" then normalizeName rec.Target
    else if rec.rtype = "MX" then
      natToString rec.Priority ++ "|" ++ normalizeName rec.Target
    else ""
  rec.Name ++ "|" ++ rec.rtype ++ "|" ++ val

/-- The normalization `setRecord`/`addRecord` apply to their argument. -/
def normRec (rec : ARecord) : ARecord :=
  { rec with
    Name := normalizeName rec.Name
    rtype := normalizeRecordType rec.rtype
    Zone := normalizeName rec.Zone }

/-- Does a stored entry belong to the `(name, type)` RRset? -/
def sameNT (name ty : String) (e : String × ARecord) : Bool :=
  e.2.Name = name ∧ e.2.rtype = ty

/-- The scan-and-delete loop of `store.setRecord`, in iteration order: each
member of the `(name,type)` RRset with version ≤ `ver` is deleted as it is
visited; on the first member with version > `ver` the loop returns `false`
immediately, keeping that member, the unvisited rest — and the deletions
already performed. -/
def scanStaleDelete (name ty : String) (ver : Int) :
    List (String × ARecord) → Bool × List (String × ARecord)
  | [] => (true, [])
  | e :: rest =>
    if sameNT name ty e then
      if e.2.Version > ver then (false, e :: rest)
      else scanStaleDelete name ty ver rest
    else
      let r := scanStaleDelete name ty ver rest
      (r.1, e :: r.2)

/-- `store.setRecord`: replace the whole `(name,type)` RRset by `rec`,
guarded by the per-member version scan above, then the residual map-key
guard, then the map write. -/
def setRecord (rec0 : ARecord) (s : Store) : Bool × Store :=
  let r := normRec rec0
  let key := recordKey r
  match scanStaleDelete r.Name r.rtype r.Version s.records with
  | (false, recs) => (false, { s with records := recs })
  | (true, recs) =>
    match lookupA key recs with
    | some prev =>
      if prev.Version > r.Version then (false, { s with records := recs })
      else (true, { s with records := setA recs key r })
    | none => (true, { s with records := setA recs key r })

/-- `store.addRecord`: RRset-member add under the identity-key version
guard. -/
def addRecord (rec0 : ARecord) (s : Store) : Bool × Store :=
  let r := normRec rec0
  let key := recordKey r
  match lookupA key s.records with
  | some prev =>
    if prev.Version > r.Version then (false, s)
    else (true, { s with records := setA s.records key r })
  | none => (true, { s with records := setA s.records key r })

/-- `store.hasName`. -/
def hasName (s : Store) (name : String) : Bool :=
  let name := normalizeName name
  s.records.any (fun e => e.2.Name = name)

/-- DNS type codes used by the code. -/
def typeNone : Nat := 0
def typeA : Nat := 1
def typeNS : Nat := 2
def typeCNAME : Nat := 5
def typeSOA : Nat := 6
def typeMX : Nat := 15
def typeTXT : Nat := 16
def typeAAAA : Nat := 28
def typeANY : Nat := 255

/-- The per-qtype filter of `store.getRecords` (the `switch qtype`). -/
def qtypeKeeps (qtype : Nat) (rec : ARecord) : Bool :=
  if qtype = typeA then rec.rtype = "A"
  else if qtype = typeAAAA then rec.rtype = "AAAA"
  else if qtype = typeANY then true
  else if qtype = typeTXT then rec.rtype = "TXT"
  else if qtype = typeCNAME then rec.rtype = "CNAME"
  else if qtype = typeMX then rec.rtype = "MX"
  else false

/-- The comparison `sort.Slice` uses in `getRecords`: by type, then name. -/
def recLess (a b : ARecord) : Bool :=
  if a.rtype = b.rtype then goStringLt a.Name b.Name
  else goStringLt a.rtype b.rtype

/-- `store.getRecords`: the members of `name` kept by the qtype filter,
sorted by `(type, name)`.  Go's `sort.Slice` is unstable, so ties (same type
and name) come out in an order that depends on map iteration; here they keep
the list order, which together with quantification over the record-list
order covers every behaviour of the original. -/
def getRecords (s : Store) (name : String) (qtype : Nat) : List ARecord :=
  let name := normalizeName name
  let out := (s.records.map (·.2)).filter
    (fun rec => rec.Name = name ∧ qtypeKeeps qtype rec)
  List.insertionSort (fun a b => ¬ recLess b a) out

/-- `store.getZone`. -/
def getZone (s : Store) (zone : String) : Option ZoneConfig :=
  lookupA (normalizeName zone) s.zones

/-- The normalization `upsertZone` applies to its argument. -/
def normZone (z : ZoneConfig) : ZoneConfig :=
  { z with Zone := normalizeName z.Zone, NS := normalizeNames z.NS }

/-- `store.upsertZone`: serial-guarded overwrite of the zone entry. -/
def upsertZone (z0 : ZoneConfig) (s : Store) : Bool × Store :=
  let z := normZone z0
  match lookupA z.Zone s.zones with
  | some prev =>
    if prev.Serial > z.Serial then (false, s)
    else (true, { s with zones := setA s.zones z.Zone z })
  | none => (true, { s with zones := setA s.zones z.Zone z })

/-- `store.bestZone`: the suffix-matching zone with the most labels, the
first found winning ties (tie-breaking is immaterial: equal label counts on a
common suffix chain force equal names). -/
def bestZone (s : Store) (name : String) : Option ZoneConfig :=
  let q := normalizeName name
  (s.zones.foldl (fun acc (e : String × ZoneConfig) =>
    if isSubDomain e.1 q then
      match acc with
      | none => some (e.2, countLabel e.1)
      | some b => if countLabel e.1 > b.2 then some (e.2, countLabel e.1) else acc
    else acc) none).map (·.1)

/-! ### Resolver (`dns.go`) -/

/-- Wire resource records as the resolver emits them.  An `a` record carries
the 4 bytes of `ParseIP(ip).To4()`; an `aaaa` record the 16 bytes of the
parsed address. -/
inductive RR where
  | a (name : String) (ttl : Nat) (ip : List Nat)
  | aaaa (name : String) (ttl : Nat) (ip : List Nat)
  | txt (name : String) (ttl : Nat) (chunks : List String)
  | cname (name : String) (ttl : Nat) (target : String)
  | mx (name : String) (ttl : Nat) (pref : Nat) (mx : String)
  | ns (name : String) (ttl : Nat) (ns : String)
  | soa (name : String) (ttl : Nat) (mname rname : String)
      (serial refresh retryIv expire minttl : Nat)
  deriving DecidableEq, Repr

/-- `chunkTXT`: split text into 255-character segments (bytes in Go; the
texts in this development are ASCII, where the two coincide). -/
def chunkTXT (v : String) : List String :=
  if v = "" then [""]
  else
    let rec go : Nat → List Char → List String
      | 0, cs => [⟨cs⟩]
      | fuel + 1, cs =>
        if cs.length > 255 then ⟨cs.take 255⟩ :: go fuel (cs.drop 255)
        else [⟨cs⟩]
    go v.data.length v.data

/-- `shuffleRR`: lists of fewer than two elements are untouched; otherwise
the Fisher–Yates outcome is the oracle `shuf` (the code seeds it from the
wall clock, so the permutation is arbitrary and varies between runs). -/
def shuffleRR (shuf : List RR → List RR) (l : List RR) : List RR :=
  if l.length < 2 then l else shuf l

/-- `soaForZone`: the synthesized SOA (MNAME is the first NS, or the apex
when the NS list is empty). -/
def soaForZone (z : ZoneConfig) : RR :=
  let mname := match z.NS with | [] => z.Zone | n :: _ => n
  RR.soa z.Zone z.SOATTL mname ("hostmaster." ++ z.Zone) z.Serial 30 30 300
    z.SOATTL

/-- The CNAME fallback loop shared by the A/AAAA/TXT branches. -/
def cnameFallback (s : Store) (name : String) : List RR :=
  (getRecords s name typeCNAME).map fun rec =>
    RR.cname name rec.TTL (normalizeName rec.Target)

/-- Intermediate `[]*dns.MX` list built by the MX branch before sorting. -/
structure MXRR where
  name : String
  ttl : Nat
  pref : Nat
  mx : String
  deriving DecidableEq, Repr

/-- The `sort.SliceStable` comparison of the MX branch: preference, then
target. -/
def mxLess (a b : MXRR) : Bool :=
  if a.pref = b.pref then goStringLt a.mx b.mx else a.pref < b.pref

/-- One step of the A/ANY answer loop: `(others, aAnswers, hasDirect)`.
`others` are the records appended to `resp.Answer` inside the loop (AAAA,
TXT, CNAME, MX under ANY); `aAnswers` is the shuffled-A accumulator. -/
def aBranchStep (name : String) (qt : Nat) (st : List RR × List RR × Bool)
    (rec : ARecord) : List RR × List RR × Bool :=
  let others := st.1
  let aAns := st.2.1
  let hasDirect := st.2.2
  let aAns :=
    if rec.rtype = "A" then
      match (parseIP rec.IP).bind to4 with
      | some b4 => aAns ++ [RR.a name rec.TTL b4]
      | none => aAns
    else aAns
  let hasDirect := if rec.rtype = "A" then true else hasDirect
  let others :=
    if rec.rtype = "AAAA" ∧ qt = typeANY then
      match parseIP rec.IP with
      | some ip =>
        if to4 ip = none then others ++ [RR.aaaa name rec.TTL ip] else others
      | none => others
    else others
  let (others, hasDirect) :=
    if rec.rtype = "TXT" ∧ qt = typeANY then
      (others ++ [RR.txt name rec.TTL (chunkTXT rec.Text)], true)
    else (others, hasDirect)
  let (others, hasDirect) :=
    if rec.rtype = "CNAME" ∧ qt = typeANY then
      (others ++ [RR.cname name rec.TTL (normalizeName rec.Target)], true)
    else (others, hasDirect)
  let (others, hasDirect) :=
    if rec.rtype = "MX" ∧ qt = typeANY then
      (others ++ [RR.mx name rec.TTL rec.Priority (normalizeName rec.Target)],
        true)
    else (others, hasDirect)
  (others, aAns, hasDirect)

/-- The answer chunk one question contributes (the `switch q.Qtype` body of
`resolveDNS`). -/
def questionAnswers (shuf : List RR → List RR) (s : Store) (qname : String)
    (qt : Nat) : List RR :=
  let name := normalizeName qname
  if qt = typeA ∨ qt = typeANY then
    let st := (getRecords s name qt).foldl (aBranchStep name qt) ([], [], false)
    st.1 ++ shuffleRR shuf st.2.1 ++
      (if qt = typeA ∧ st.2.2 = false then cnameFallback s name else [])
  else if qt = typeAAAA then
    let step := fun (st : List RR × Bool) (rec : ARecord) =>
      match parseIP rec.IP with
      | some ip =>
        if to4 ip = none then (st.1 ++ [RR.aaaa name rec.TTL ip], true) else st
      | none => st
    let st := (getRecords s name qt).foldl step ([], false)
    shuffleRR shuf st.1 ++
      (if st.2 = false then cnameFallback s name else [])
  else if qt = typeTXT then
    let recs := getRecords s name qt
    (recs.map fun rec => RR.txt name rec.TTL (chunkTXT rec.Text)) ++
      (if recs = [] then cnameFallback s name else [])
  else if qt = typeCNAME then
    (getRecords s name qt).map fun rec =>
      RR.cname name rec.TTL (normalizeName rec.Target)
  else if qt = typeMX then
    let mxs := (getRecords s name qt).map fun rec =>
      MXRR.mk name rec.TTL rec.Priority (normalizeName rec.Target)
    (List.insertionSort (fun a b => ¬ mxLess b a) mxs).map fun m =>
      RR.mx m.name m.ttl m.pref m.mx
  else if qt = typeNS then
    match getZone s name with
    | some zone => zone.NS.map fun n => RR.ns name zone.SOATTL n
    | none => []
  else if qt = typeSOA then
    match bestZone s name with
    | some zone => [soaForZone zone]
    | none => []
  else []

/-- The whole answer section after type dispatch (all questions). -/
def dispatchAnswers (shuf : List RR → List RR) (s : Store)
    (qs : List (String × Nat)) : List RR :=
  (qs.map fun q => questionAnswers shuf s q.1 q.2).flatten

/-- The response message (the fields of `dns.Msg` the resolver sets). -/
structure DnsResp where
  answer : List RR
  authority : List RR
  rcode : Nat
  authoritative : Bool
  deriving DecidableEq, Repr

/-- The qtypes eligible for a NODATA answer in the empty-answer
classification. -/
def supportedQtype (t : Nat) : Bool :=
  t = typeA ∨ t = typeAAAA ∨ t = typeTXT ∨ t = typeCNAME ∨ t = typeMX ∨
    t = typeANY

def rcodeSuccess : Nat := 0
def rcodeNameError : Nat := 3
def rcodeRefused : Nat := 5

/-- `server.resolveDNS`: type dispatch per question, then the empty-answer
classification on the first question. -/
def resolveDNS (shuf : List RR → List RR) (s : Store)
    (qs : List (String × Nat)) : DnsResp :=
  let ans := dispatchAnswers shuf s qs
  if ans.length = 0 then
    let fq := match qs.head? with | some q => normalizeName q.1 | none => "."
    let ft := match qs.head? with | some q => q.2 | none => typeNone
    match bestZone s fq with
    | some zone =>
      if hasName s fq ∧ supportedQtype ft then
        { answer := ans, authority := [soaForZone zone],
          rcode := rcodeSuccess, authoritative := true }
      else
        { answer := ans, authority := [soaForZone zone],
          rcode := rcodeNameError, authoritative := true }
    | none =>
      { answer := ans, authority := [], rcode := rcodeRefused,
        authoritative := true }
  else
    { answer := ans, authority := [], rcode := rcodeSuccess,
      authoritative := true }

/-! ### Control API (`http.go`): validation, zone resolution, handlers -/

/-- The configuration fields the embedded handlers read. -/
structure GoConfig where
  NodeID : String := ""
  DefaultTTL : Nat := 20
  DefaultZone : String := ""
  DefaultNS : List String := []
  deriving DecidableEq, Repr

/-- `config.defaultNSForZone` (the zone argument is ignored; a copy of
`DEFAULT_NS` when non-empty, else nil). -/
def defaultNSForZone (cfg : GoConfig) (_zone : String) : List String :=
  if cfg.DefaultNS.length > 0 then cfg.DefaultNS else []

/-- `server.inferZone`: longest-match zone, else the configured default
zone, else all but the leftmost label. -/
def inferZone (cfg : GoConfig) (s : Store) (name : String) : String :=
  match bestZone s name with
  | some z => z.Zone
  | none =>
    if cfg.DefaultZone ≠ "" then cfg.DefaultZone
    else
      let labels := splitDomainName (normalizeName name)
      if labels.length ≤ 1 then normalizeName name
      else normalizeName (goIntercalate "." labels.tail)

/-- Validation error messages, verbatim. -/
def errTypeA : String := "type A requires IPv4"
def errTypeAAAA : String := "type AAAA requires IPv6"
def errTypeTXT : String := "type TXT requires text"
def errTypeCNAME : String := "type CNAME requires target"
def errTypeMX : String := "type MX requires target"
def errTypeTag : String := "type must be A, AAAA, TXT, CNAME or MX"

/-- The `rawType` computation at the head of `server.normalizeRecordInput`:
upper-case/trim the supplied tag and, when it is empty, infer the type from
which value fields the payload carries. -/
def inferRecordType (rec : ARecord) : String :=
  let rawType0 := goToUpper (goTrimSpace rec.rtype)
  if rawType0 = "" then
    if goTrimSpace rec.Text ≠ "" then "TXT"
    else if goTrimSpace rec.Target ≠ "" ∧ rec.Priority > 0 then "MX"
    else if goTrimSpace rec.Target ≠ "" then "CNAME"
    else
      match parseIP (goTrimSpace rec.IP) with
      | some ip => if to4 ip = none then "AAAA" else "A"
      | none => "A"
  else rawType0

/-- `server.normalizeRecordInput`: infer the type when absent, coerce the
tag through `normalizeRecordType` (with `MX` reinstated afterwards), then
run the per-type value check and canonicalize the record. -/
def normalizeRecordInput (cfg : GoConfig) (s : Store) (rec : ARecord) :
    Except String ARecord :=
  let rawType := inferRecordType rec
  let r := { rec with
    rtype := if rawType = "MX" then "MX" else normalizeRecordType rawType }
  let checked : Except String ARecord :=
    if r.rtype = "A" then
      match parseIP (goTrimSpace r.IP) with
      | some ip =>
        if to4 ip = none then .error errTypeA
        else .ok { r with IP := ipString ip, Text := "", Target := "",
                          Priority := 0 }
      | none => .error errTypeA
    else if r.rtype = "AAAA" then
      match parseIP (goTrimSpace r.IP) with
      | some ip =>
        if to4 ip ≠ none then .error errTypeAAAA
        else .ok { r with IP := ipString ip, Text := "", Target := "",
                          Priority := 0 }
      | none => .error errTypeAAAA
    else if r.rtype = "TXT" then
      let text := goTrimSpace r.Text
      if text = "" then .error errTypeTXT
      else .ok { r with Text := text, IP := "", Target := "", Priority := 0 }
    else if r.rtype = "CNAME" then
      let target := normalizeName r.Target
      if target = "." then .error errTypeCNAME
      else .ok { r with Target := target, IP := "", Text := "",
                        Priority := 0 }
    else if r.rtype = "MX" then
      let target := normalizeName r.Target
      if target = "." then .error errTypeMX
      else
        .ok { r with Target := target,
                     Priority := if r.Priority = 0 then 10 else r.Priority,
                     IP := "", Text := "" }
    else .error errTypeTag
  checked.map fun r0 =>
    let r1 := { r0 with Name := normalizeName r0.Name,
                        Zone := normalizeName r0.Zone }
    if r1.Zone = "." then { r1 with Zone := inferZone cfg s r1.Name }
    else r1

/-- `upsertRecordRequest` (the JSON body of the record endpoints). -/
structure UpsertRecordRequest where
  IP : String := ""
  rtype : String := ""
  Text : String := ""
  Target : String := ""
  Priority : Nat := 0
  TTL : Nat := 0
  Zone : String := ""
  deriving DecidableEq, Repr

/-- `server.buildRecordFromRequest` (`now` supplies `UpdatedAt` and the
nanosecond version stamp). -/
def buildRecordFromRequest (cfg : GoConfig) (s : Store) (name : String)
    (req : UpsertRecordRequest) (nowNano : Int) : Except String ARecord :=
  let r : ARecord :=
    { Name := name
      rtype := goToUpper (goTrimSpace req.rtype)
      IP := goTrimSpace req.IP
      Text := goTrimSpace req.Text
      Target := goTrimSpace req.Target
      Priority := req.Priority
      TTL := req.TTL
      Zone := req.Zone
      UpdatedAt := nowNano
      Version := nowNano
      Source := cfg.NodeID }
  let r := if r.TTL = 0 then { r with TTL := cfg.DefaultTTL } else r
  let r := if r.Zone = "" then { r with Zone := inferZone cfg s name }
           else r
  normalizeRecordInput cfg s r

/-- `errMissingZoneNS`, verbatim. -/
def errMissingZoneNS : String :=
  "zone NS is not configured; set DEFAULT_NS or create zone with explicit ns"

/-- `server.ensureZoneDefaults`: fill the zone entity from the in-memory
zone, else the configured default NS, failing when no NS source remains. -/
def ensureZoneDefaults (cfg : GoConfig) (s : Store) (z : ZoneConfig)
    (nowUnix : Nat) (nowT : Int) : Except String ZoneConfig :=
  match getZone s z.Zone with
  | some existing =>
    let z := if z.NS.length = 0 then { z with NS := existing.NS } else z
    let z := if z.SOATTL = 0 then { z with SOATTL := existing.SOATTL } else z
    let z := if z.Serial = 0 then { z with Serial := nowUnix } else z
    let z := if z.UpdatedAt = 0 then { z with UpdatedAt := nowT } else z
    if z.NS.length = 0 then .error errMissingZoneNS else .ok z
  | none =>
    let z := if z.NS.length = 0 then { z with NS := defaultNSForZone cfg z.Zone }
             else z
    if z.NS.length = 0 then .error errMissingZoneNS
    else
      let z := if z.SOATTL = 0 then { z with SOATTL := cfg.DefaultTTL } else z
      let z := if z.Serial = 0 then { z with Serial := nowUnix } else z
      let z := if z.UpdatedAt = 0 then { z with UpdatedAt := nowT } else z
      .ok z

/-- `server.handleRecordUpsert` (PUT `/v1/records/{name}` after the name
guard): build and validate the record, ensure the zone entity, upsert zone
then record.  Persistence and replication are outside the store model. -/
def handleRecordUpsert (cfg : GoConfig) (s : Store) (name : String)
    (req : UpsertRecordRequest) (nowNano : Int) (nowUnix : Nat) :
    Except String (ARecord × Store) :=
  let ttl := if req.TTL = 0 then cfg.DefaultTTL else req.TTL
  let zone := if req.Zone = "" then inferZone cfg s name else req.Zone
  match buildRecordFromRequest cfg s name
      { req with TTL := ttl, Zone := zone } nowNano with
  | .error e => .error e
  | .ok rec =>
    match ensureZoneDefaults cfg s { Zone := zone } nowUnix nowNano with
    | .error e => .error e
    | .ok zoneCfg =>
      let s := (upsertZone zoneCfg s).2
      let s := (setRecord rec s).2
      .ok (rec, s)

/-- PUT `/v1/records/{name}`: the `handleRecordByName` name guard composed
with `handleRecordUpsert`. -/
def handleRecordPut (cfg : GoConfig) (s : Store) (rawName : String)
    (req : UpsertRecordRequest) (nowNano : Int) (nowUnix : Nat) :
    Except String (ARecord × Store) :=
  let name := normalizeName rawName
  if name = "." then .error "missing record name"
  else handleRecordUpsert cfg s name req nowNano nowUnix

/-- `upsertZoneRequest`. -/
structure UpsertZoneRequest where
  NS : List String := []
  SOATTL : Nat := 0
  deriving DecidableEq, Repr

/-- The handler's own missing-NS message, verbatim. -/
def errZoneNSRequired : String :=
  "ns is required when DEFAULT_NS is not configured"

/-- PUT `/v1/zones/{zone}` (`server.handleZoneByName`): resolve the NS list
from the request, the in-memory zone, or the configured default, failing
with 400 when all three are empty; then the serial-guarded store upsert. -/
def handleZoneByName (cfg : GoConfig) (s : Store) (rawZone : String)
    (req : UpsertZoneRequest) (nowUnix : Nat) (nowT : Int) :
    Except String (ZoneConfig × Store) :=
  let zone := normalizeName rawZone
  if zone = "." then .error "missing zone name"
  else
    let ttl := if req.SOATTL = 0 then cfg.DefaultTTL else req.SOATTL
    let ns := normalizeNames req.NS
    let ns :=
      if ns.length = 0 then
        match getZone s zone with
        | some existing =>
          if existing.NS.length > 0 then existing.NS
          else defaultNSForZone cfg zone
        | none => defaultNSForZone cfg zone
      else ns
    if ns.length = 0 then .error errZoneNSRequired
    else
      let z : ZoneConfig :=
        { Zone := zone, NS := ns, SOATTL := ttl, Serial := nowUnix,
          UpdatedAt := nowT }
      .ok (z, (upsertZone z s).2)

/-- `syncEvent` (the fields the zone arm reads). -/
structure SyncEvent where
  OriginNode : String := ""
  Op : String := ""
  Zone : String := ""
  Version : Int := 0
  ZoneConfig : Option ZoneConfig := none
  deriving DecidableEq, Repr

/-- The `case "zone"` arm of `server.handleSyncEvent`: the peer-supplied
zone config goes straight into `upsertZone` — no NS validation. -/
def handleSyncEventZone (ev : SyncEvent) (s : Store) : Except String Store :=
  match ev.ZoneConfig with
  | none => .error "zone_config required for zone op"
  | some zc => .ok (upsertZone zc s).2

/-! ### DoH adapter (`/dns-query`)

The wire codec of miekg/dns (`Msg.Unpack`) is outside the store model; the
handlers are parameterized by an arbitrary `unpack` function from payload
bytes to the question section, which is all the resolver reads.  `Pack` is a
deterministic function of the resolved message, so response messages equal
⇒ response bytes equal. -/

/-- `base64.RawURLEncoding` digit values. -/
def b64Val (c : Char) : Option Nat :=
  if 'A' ≤ c ∧ c ≤ 'Z' then some (c.toNat - 65)
  else if 'a' ≤ c ∧ c ≤ 'z' then some (c.toNat - 71)
  else if '0' ≤ c ∧ c ≤ '9' then some (c.toNat + 4)
  else if c = '-' then some 62
  else if c = '_' then some 63
  else none

/-- `base64.RawURLEncoding.DecodeString`: unpadded base64url; a remainder of
one digit is invalid; excess trailing bits are ignored (the non-strict Go
decoder). -/
def base64urlDecode (s : String) : Option (List Nat) :=
  let rec go : List Char → Option (List Nat)
    | [] => some []
    | [_] => none
    | [c1, c2] =>
      match b64Val c1, b64Val c2 with
      | some v1, some v2 => some [v1 * 4 + v2 / 16]
      | _, _ => none
    | [c1, c2, c3] =>
      match b64Val c1, b64Val c2, b64Val c3 with
      | some v1, some v2, some v3 =>
        some [v1 * 4 + v2 / 16, v2 % 16 * 16 + v3 / 4]
      | _, _, _ => none
    | c1 :: c2 :: c3 :: c4 :: rest =>
      match b64Val c1, b64Val c2, b64Val c3, b64Val c4, go rest with
      | some v1, some v2, some v3, some v4, some bs =>
        some ([v1 * 4 + v2 / 16, v2 % 16 * 16 + v3 / 4, v3 % 4 * 64 + v4] ++ bs)
      | _, _, _, _, _ => none
  go s.data

/-- `dns.MaxMsgSize`. -/
def dnsMaxMsgSize : Nat := 65535

/-- What a DoH request produces: an HTTP error status with its message, or
the resolved DNS message (packed to bytes by `Msg.Pack` in the original). -/
inductive DoHOut where
  | httpError (status : Nat) (msg : String)
  | okMsg (resp : DnsResp)
  deriving DecidableEq, Repr

/-- The shared tail of `handleDoH` after the method-specific payload
extraction: size cap, `Unpack`, resolve. -/
def dohProcess (unpack : List Nat → Option (List (String × Nat)))
    (shuf : List RR → List RR) (s : Store) (payload : List Nat) : DoHOut :=
  if payload.length > dnsMaxMsgSize then
    .httpError 413 "dns message too large"
  else
    match unpack payload with
    | none => .httpError 400 "invalid dns message"
    | some qs => .okMsg (resolveDNS shuf s qs)

/-- `handleDoH`, GET arm: trim the `dns` query parameter, reject empty,
base64url-decode, then the shared tail. -/
def handleDoHGet (unpack : List Nat → Option (List (String × Nat)))
    (shuf : List RR → List RR) (s : Store) (dnsParam : String) : DoHOut :=
  let q := goTrimSpace dnsParam
  if q = "" then .httpError 400 "missing dns query parameter"
  else
    match base64urlDecode q with
    | none => .httpError 400 "invalid base64url dns parameter"
    | some payload => dohProcess unpack shuf s payload

/-- `handleDoH`, POST arm: the body is read through `io.LimitReader(…, 1<<16)`
(so truncated to 65536 bytes), rejected when empty, then the shared tail. -/
def handleDoHPost (unpack : List Nat → Option (List (String × Nat)))
    (shuf : List RR → List RR) (s : Store) (body : List Nat) : DoHOut :=
  let body := body.take 65536
  if body.length = 0 then .httpError 400 "empty request body"
  else dohProcess unpack shuf s body

/-! ## General lemmas about the map model -/

theorem lookupA_nil {α : Type} (k : String) :
    lookupA k ([] : List (String × α)) = none := rfl

theorem lookupA_cons {α : Type} (e : String × α) (t : List (String × α))
    (k : String) :
    lookupA k (e :: t) = if e.1 = k then some e.2 else lookupA k t := by
  by_cases h : e.1 = k <;> simp [lookupA, List.find?, h]

theorem lookupA_setA_self {α : Type} (l : List (String × α)) (k : String)
    (v : α) : lookupA k (setA l k v) = some v := by
  induction l with
  | nil =>
    show lookupA k [(k, v)] = some v
    rw [lookupA_cons, if_pos rfl]
  | cons e t ih =>
    by_cases h : e.1 = k
    · show lookupA k (if e.1 = k then (k, v) :: t else e :: setA t k v) = some v
      rw [if_pos h, lookupA_cons, if_pos rfl]
    · show lookupA k (if e.1 = k then (k, v) :: t else e :: setA t k v) = some v
      rw [if_neg h, lookupA_cons, if_neg h, ih]

theorem lookupA_setA_ne {α : Type} (l : List (String × α)) (k k' : String)
    (v : α) (h : k' ≠ k) : lookupA k' (setA l k v) = lookupA k' l := by
  induction l with
  | nil =>
    show lookupA k' [(k, v)] = lookupA k' []
    rw [lookupA_cons, if_neg (fun hh => h hh.symm)]
  | cons e t ih =>
    by_cases he : e.1 = k
    · show lookupA k' (if e.1 = k then (k, v) :: t else e :: setA t k v) =
        lookupA k' (e :: t)
      rw [if_pos he, lookupA_cons, lookupA_cons,
        if_neg (fun hh => h hh.symm),
        if_neg (fun hh => h (he.symm.trans hh).symm)]
    · show lookupA k' (if e.1 = k then (k, v) :: t else e :: setA t k v) =
        lookupA k' (e :: t)
      rw [if_neg he, lookupA_cons, lookupA_cons]
      by_cases he' : e.1 = k'
      · rw [if_pos he', if_pos he']
      · rw [if_neg he', if_neg he', ih]

/-! ## C1 — the RRset-replacing upsert is *not* all-or-nothing

`store.setRecord` deletes stale members of the `(name,type)` RRset as it
scans the map, and returns not-applied the moment it meets a member with a
newer version.  With two members — the stale one visited first — the
rejected operation shrinks the RRset.  The persistence twin
(`persistence.upsertRecord`) checks the whole set *before* deleting, which
is the semantics the spec states. -/

/-- Failing input: the older RRset member (version 1). -/
def c1Low : ARecord := { Name := "app.example.com", IP := "192.0.2.2", Version := 1 }

/-- Failing input: the newer RRset member (version 5). -/
def c1High : ARecord := { Name := "app.example.com", IP := "192.0.2.1", Version := 5 }

/-- The pre-state: both members, the older one first in iteration order. -/
def c1Store : Store := (addRecord c1High (addRecord c1Low {}).2).2

/-- The incoming write at version 3 (newer than one member, older than the
other). -/
def c1Incoming : ARecord :=
  { Name := "app.example.com", IP := "192.0.2.9", Version := 3 }

/-- C1: at the failing input the upsert returns not-applied, yet the store
is *not* the pre-state — the version-1 member has been deleted, shrinking
the RRset from two members to one. -/
theorem c1_setRecord_reject_deletes_member :
    (setRecord c1Incoming c1Store).1 = false ∧
    (setRecord c1Incoming c1Store).2 ≠ c1Store ∧
    c1Store.records.length = 2 ∧
    (setRecord c1Incoming c1Store).2.records.length = 1 ∧
    hasName c1Store "app.example.com." = true := by decide

/-! ## C7 — zone serials never decrease in the store -/

/-- C7: `upsertZone` returns not-applied exactly when the stored serial is
strictly newer (leaving the store untouched), and every stored zone's serial
is ≥ its pre-state serial after any upsert. -/
theorem c7_upsertZone_serial_monotone (s : Store) (z : ZoneConfig) :
    ((upsertZone z s).1 = false ↔
      ∃ prev, lookupA (normalizeName z.Zone) s.zones = some prev ∧
        prev.Serial > z.Serial) ∧
    ((upsertZone z s).1 = false → (upsertZone z s).2 = s) ∧
    ∀ name prev, lookupA name s.zones = some prev →
      ∃ cur, lookupA name (upsertZone z s).2.zones = some cur ∧
        prev.Serial ≤ cur.Serial := by
  have hkey : (normZone z).Zone = normalizeName z.Zone := rfl
  cases hl : lookupA (normalizeName z.Zone) s.zones with
  | none =>
    have hred : upsertZone z s = (true,
        { s with zones := setA s.zones (normalizeName z.Zone) (normZone z) }) := by
      simp only [upsertZone]; rw [hkey, hl]
    refine ⟨?_, ?_, ?_⟩
    · rw [hred]
      constructor
      · intro habs; exact absurd habs (by simp)
      · rintro ⟨q, hq, -⟩; exact Option.noConfusion hq
    · rw [hred]; intro habs; exact absurd habs (by simp)
    · intro name prev hprev
      rw [hred]
      by_cases hk : name = normalizeName z.Zone
      · rw [hk] at hprev; rw [hprev] at hl; exact absurd hl (by simp)
      · exact ⟨prev, by rw [lookupA_setA_ne _ _ _ _ hk]; exact hprev, le_rfl⟩
  | some p =>
    by_cases hgt : z.Serial < p.Serial
    · have hred : upsertZone z s = (false, s) := by
        simp only [upsertZone]; rw [hkey, hl]; exact if_pos hgt
      refine ⟨?_, ?_, ?_⟩
      · rw [hred]
        exact ⟨fun _ => ⟨p, rfl, hgt⟩, fun _ => rfl⟩
      · rw [hred]; intro _; rfl
      · intro name prev hprev
        rw [hred]
        exact ⟨prev, hprev, le_rfl⟩
    · have hred : upsertZone z s = (true,
          { s with zones := setA s.zones (normalizeName z.Zone) (normZone z) }) := by
        simp only [upsertZone]; rw [hkey, hl]; exact if_neg hgt
      refine ⟨?_, ?_, ?_⟩
      · rw [hred]
        constructor
        · intro habs; exact absurd habs (by simp)
        · rintro ⟨q, hq, hqgt⟩
          cases hq
          exact absurd hqgt hgt
      · rw [hred]; intro habs; exact absurd habs (by simp)
      · intro name prev hprev
        rw [hred]
        by_cases hk : name = normalizeName z.Zone
        · subst hk
          rw [hprev] at hl
          cases hl
          refine ⟨_, lookupA_setA_self s.zones _ _, ?_⟩
          show _ ≤ (normZone z).Serial
          simpa [normZone] using Nat.le_of_not_lt hgt
        · exact ⟨prev, by rw [lookupA_setA_ne _ _ _ _ hk]; exact hprev, le_rfl⟩

/-- Concrete zone already stored at serial 9. -/
def c7Prev : ZoneConfig := { Zone := "z.com.", NS := ["a.b."], Serial := 9 }

/-- Pre-state holding `c7Prev`. -/
def c7St : Store := { zones := [("z.com.", c7Prev)] }

/-- A stale zone write at serial 5. -/
def c7Low : ZoneConfig := { Zone := "z.com", Serial := 5 }

/-- Witness for C7 at a concrete input: the stale write is rejected and the
stored serial stays at 9. -/
theorem c7_witness :
    ((upsertZone c7Low c7St).1 = false) ∧
    ∃ cur, lookupA "z.com." (upsertZone c7Low c7St).2.zones = some cur ∧
      c7Prev.Serial ≤ cur.Serial := by
  refine ⟨?_, ?_⟩
  · exact (c7_upsertZone_serial_monotone c7St c7Low).1.mpr
      ⟨c7Prev, by decide, by decide⟩
  · exact (c7_upsertZone_serial_monotone c7St c7Low).2.2 "z.com." c7Prev
      (by decide)

/-! ## C3 — last-writer-wins commutativity of the RRset upsert

Lemmas about the scan-and-delete loop, then the commutation theorem. -/

theorem lookupA_eq_none {α : Type} {l : List (String × α)} {k : String}
    (h : ∀ e ∈ l, e.1 ≠ k) : lookupA k l = none := by
  induction l with
  | nil => rfl
  | cons e t ih =>
    rw [lookupA_cons, if_neg (h e (List.mem_cons_self e t))]
    exact ih fun x hx => h x (List.mem_cons_of_mem e hx)

theorem setA_append {α : Type} {l : List (String × α)} {k : String} (v : α)
    (h : ∀ e ∈ l, e.1 ≠ k) : setA l k v = l ++ [(k, v)] := by
  induction l with
  | nil => rfl
  | cons e t ih =>
    show (if e.1 = k then (k, v) :: t else e :: setA t k v) = e :: (t ++ [(k, v)])
    rw [if_neg (h e (List.mem_cons_self e t)),
      ih fun x hx => h x (List.mem_cons_of_mem e hx)]

theorem scan_sublist (n t : String) (v : Int) (l : List (String × ARecord)) :
    (scanStaleDelete n t v l).2.Sublist l := by
  induction l with
  | nil => simp [scanStaleDelete]
  | cons e rest ih =>
    by_cases hm : sameNT n t e
    · by_cases hv : e.2.Version > v
      · simp [scanStaleDelete, hm, hv]
      · simpa [scanStaleDelete, hm, hv] using ih.cons e
    · simpa [scanStaleDelete, hm] using ih.cons₂ e

theorem scan_filter (n t : String) (v : Int) (l : List (String × ARecord)) :
    (scanStaleDelete n t v l).2.filter (fun e => ! sameNT n t e) =
      l.filter (fun e => ! sameNT n t e) := by
  induction l with
  | nil => simp [scanStaleDelete]
  | cons e rest ih =>
    by_cases hm : sameNT n t e
    · by_cases hv : e.2.Version > v
      · simp [scanStaleDelete, hm, hv]
      · simpa [scanStaleDelete, hm, hv, List.filter] using ih
    · simpa [scanStaleDelete, hm, List.filter] using ih

theorem scan_all_le (n t : String) (v : Int) (l : List (String × ARecord))
    (h : ∀ e ∈ l, sameNT n t e = true → e.2.Version ≤ v) :
    scanStaleDelete n t v l = (true, l.filter (fun e => ! sameNT n t e)) := by
  induction l with
  | nil => simp [scanStaleDelete]
  | cons e rest ih =>
    have ih' := ih fun x hx => h x (List.mem_cons_of_mem e hx)
    by_cases hm : sameNT n t e
    · have hle : e.2.Version ≤ v := h e (List.mem_cons_self e rest) hm
      have hv : ¬ e.2.Version > v := not_lt.mpr hle
      simp [scanStaleDelete, hm, hv, ih', List.filter]
    · simp [scanStaleDelete, hm, ih', List.filter]

theorem scan_true_filter (n t : String) (v : Int)
    (l : List (String × ARecord))
    (h : (scanStaleDelete n t v l).1 = true) :
    (scanStaleDelete n t v l).2 = l.filter (fun e => ! sameNT n t e) := by
  induction l with
  | nil => simp [scanStaleDelete]
  | cons e rest ih =>
    by_cases hm : sameNT n t e
    · by_cases hv : e.2.Version > v
      · rw [scanStaleDelete, if_pos hm, if_pos hv] at h
        exact absurd h (by simp)
      · rw [scanStaleDelete, if_pos hm, if_neg hv] at h ⊢
        rw [ih h, List.filter, hm]
        simp
    · rw [scanStaleDelete, if_neg hm] at h ⊢
      simp only at h
      rw [List.filter]
      simp only [hm, Bool.not_false, ih h]

theorem scan_append_clean (n t : String) (v : Int)
    (l₁ l₂ : List (String × ARecord))
    (h : ∀ e ∈ l₁, sameNT n t e = false) :
    scanStaleDelete n t v (l₁ ++ l₂) =
      ((scanStaleDelete n t v l₂).1, l₁ ++ (scanStaleDelete n t v l₂).2) := by
  induction l₁ with
  | nil => simp [scanStaleDelete]
  | cons e rest ih =>
    have hm : ¬ (sameNT n t e = true) := by
      simp [h e (List.mem_cons_self e rest)]
    rw [List.cons_append, scanStaleDelete, if_neg hm,
      ih fun x hx => h x (List.mem_cons_of_mem e hx)]
    rfl

theorem scan_singleton_newer (n t : String) (v : Int) (e : String × ARecord)
    (hm : sameNT n t e = true) (hv : e.2.Version > v) :
    scanStaleDelete n t v [e] = (false, [e]) := by
  rw [scanStaleDelete, if_pos hm, if_pos hv]

theorem scan_singleton_older (n t : String) (v : Int) (e : String × ARecord)
    (hm : sameNT n t e = true) (hv : ¬ e.2.Version > v) :
    scanStaleDelete n t v [e] = (true, []) := by
  rw [scanStaleDelete, if_pos hm, if_neg hv]
  rfl

/-- The normalized record at an overridden version. -/
def recAtVersion (r : ARecord) (v : Int) : ARecord :=
  { normRec r with Version := v }

/-- Version updates commute with the record normalization, and leave the
record key unchanged. -/
theorem normRec_version (r : ARecord) (v : Int) :
    normRec { r with Version := v } = recAtVersion r v := rfl

theorem recordKey_version (r : ARecord) (v : Int) :
    recordKey (recAtVersion r v) = recordKey (normRec r) := rfl

/-- No entry of the cleaned RRset complement carries the record's key
(assuming the key-consistency hypothesis on the pre-state). -/
theorem filter_no_key (nm tp : String) (key : String)
    (l : List (String × ARecord))
    (hkey : ∀ e ∈ l, e.1 = key → sameNT nm tp e = true) :
    ∀ e ∈ l.filter (fun e => ! sameNT nm tp e), e.1 ≠ key := by
  intro e he hk
  have h1 : sameNT nm tp e = true :=
    hkey e (List.mem_filter.mp he).1 hk
  have h2 : (! sameNT nm tp e) = true := (List.mem_filter.mp he).2
  rw [h1] at h2
  exact absurd h2 (by simp)

/-- Reduction of `setRecord` when the scan loop rejects: the store keeps the
partially deleted record list. -/
theorem setRecord_scan_rejected (rec0 : ARecord) (s : Store)
    (l : List (String × ARecord))
    (hscan : scanStaleDelete (normRec rec0).Name (normRec rec0).rtype
      (normRec rec0).Version s.records = (false, l)) :
    setRecord rec0 s = (false, { s with records := l }) := by
  simp only [setRecord, hscan]

/-- Reduction of `setRecord` when the scan loop completes and the record key
is fresh in the remainder: the record is appended. -/
theorem setRecord_scan_applied (rec0 : ARecord) (s : Store)
    (l : List (String × ARecord))
    (hscan : scanStaleDelete (normRec rec0).Name (normRec rec0).rtype
      (normRec rec0).Version s.records = (true, l))
    (hnk : ∀ e ∈ l, e.1 ≠ recordKey (normRec rec0)) :
    setRecord rec0 s =
      (true, { s with records := l ++ [(recordKey (normRec rec0), normRec rec0)] }) := by
  simp only [setRecord, hscan, lookupA_eq_none hnk, setA_append _ hnk]

/-- C3 (amended): for a single record identity with versions `v1 < v2`,
provided no pre-existing member of the `(name,type)` RRset is newer than
`v2` and the map keys are consistent on that RRset, applying the upsert at
`v1` then `v2` and at `v2` then `v1` reach the same store — the one carrying
the `v2` write as the sole RRset member. -/
theorem c3_setRecord_lww_commute (s : Store) (r : ARecord) (v1 v2 : Int)
    (hv : v1 < v2)
    (hfresh : ∀ e ∈ s.records,
      sameNT (normRec r).Name (normRec r).rtype e = true → e.2.Version ≤ v2)
    (hkey : ∀ e ∈ s.records, e.1 = recordKey (normRec r) →
      sameNT (normRec r).Name (normRec r).rtype e = true) :
    (setRecord { r with Version := v2 }
        (setRecord { r with Version := v1 } s).2).2 =
      (setRecord { r with Version := v1 }
        (setRecord { r with Version := v2 } s).2).2 ∧
    (setRecord { r with Version := v2 }
        (setRecord { r with Version := v1 } s).2).2 =
      { s with
          records := s.records.filter
                (fun e => ! sameNT (normRec r).Name (normRec r).rtype e) ++
              [(recordKey (normRec r), recAtVersion r v2)] } := by
  set nm := (normRec r).Name with hnm
  set tp := (normRec r).rtype with htp
  set key := recordKey (normRec r) with hkeydef
  set F := s.records.filter (fun e => ! sameNT nm tp e) with hF
  -- facts about the filtered complement
  have hFclean : ∀ e ∈ F, sameNT nm tp e = false := by
    intro e he
    simpa using (List.mem_filter.mp he).2
  have hFnokey : ∀ e ∈ F, e.1 ≠ key := filter_no_key nm tp key s.records hkey
  -- the singleton entries
  have hsame1 : sameNT nm tp (key, recAtVersion r v1) = true := by
    simp [sameNT, recAtVersion, hnm, htp]
  have hsame2 : sameNT nm tp (key, recAtVersion r v2) = true := by
    simp [sameNT, recAtVersion, hnm, htp]
  -- the two candidate intermediate/final stores
  set s1 : Store := { s with records := F ++ [(key, recAtVersion r v1)] } with hs1
  set s2 : Store := { s with records := F ++ [(key, recAtVersion r v2)] } with hs2
  -- order B: v2 applied to s directly, then v1 rejected untouched
  have hscan2 : scanStaleDelete nm tp v2 s.records = (true, F) :=
    scan_all_le nm tp v2 s.records hfresh
  have hsetB : setRecord { r with Version := v2 } s = (true, s2) :=
    setRecord_scan_applied _ s F hscan2 hFnokey
  have hsingleB : scanStaleDelete nm tp v1 [(key, recAtVersion r v2)] =
      (false, [(key, recAtVersion r v2)]) :=
    scan_singleton_newer nm tp v1 _ hsame2 hv
  have hscanB1 : scanStaleDelete nm tp v1 s2.records = (false, s2.records) := by
    show scanStaleDelete nm tp v1 (F ++ [(key, recAtVersion r v2)]) = _
    rw [scan_append_clean nm tp v1 F _ hFclean, hsingleB]
  have hsetB1 : setRecord { r with Version := v1 } s2 = (false, s2) :=
    setRecord_scan_rejected _ s2 s2.records hscanB1
  have hB : (setRecord { r with Version := v1 }
      (setRecord { r with Version := v2 } s).2).2 = s2 := by
    have e1 : (setRecord { r with Version := v1 }
        (setRecord { r with Version := v2 } s).2).2 =
        (setRecord { r with Version := v1 } s2).2 := by rw [hsetB]
    rw [e1, hsetB1]
  -- order A: v1 first
  rcases hb1 : scanStaleDelete nm tp v1 s.records with ⟨b1, l1⟩
  have hl1sub : ∀ e ∈ l1, e ∈ s.records := by
    intro e he
    have hsub := scan_sublist nm tp v1 s.records
    rw [hb1] at hsub
    exact hsub.mem he
  have hl1filter : l1.filter (fun e => ! sameNT nm tp e) = F := by
    have hfl := scan_filter nm tp v1 s.records
    rw [hb1] at hfl
    rw [hF]
    exact hfl
  have hA : (setRecord { r with Version := v2 }
      (setRecord { r with Version := v1 } s).2).2 = s2 := by
    cases b1 with
    | true =>
      -- v1 applied: RRset replaced by the v1 member
      have hl1 : l1 = F := by
        have h2 := scan_true_filter nm tp v1 s.records (by rw [hb1])
        rw [hb1] at h2
        rw [hF]
        exact h2
      rw [hl1] at hb1
      have hsetA1 : setRecord { r with Version := v1 } s = (true, s1) :=
        setRecord_scan_applied _ s F hb1 hFnokey
      have hsingleA : scanStaleDelete nm tp v2 [(key, recAtVersion r v1)] =
          (true, []) :=
        scan_singleton_older nm tp v2 _ hsame1 (not_lt.mpr (le_of_lt hv))
      have hscanA2 : scanStaleDelete nm tp v2 s1.records = (true, F) := by
        show scanStaleDelete nm tp v2 (F ++ [(key, recAtVersion r v1)]) = _
        rw [scan_append_clean nm tp v2 F _ hFclean, hsingleA, List.append_nil]
      have hsetA2 : setRecord { r with Version := v2 } s1 = (true, s2) :=
        setRecord_scan_applied _ s1 F hscanA2 hFnokey
      have e1 : (setRecord { r with Version := v2 }
          (setRecord { r with Version := v1 } s).2).2 =
          (setRecord { r with Version := v2 } s1).2 := by rw [hsetA1]
      rw [e1, hsetA2]
    | false =>
      -- v1 rejected (possibly after partial deletions); v2 still wins
      have hsetA1 : setRecord { r with Version := v1 } s =
          (false, { s with records := l1 }) :=
        setRecord_scan_rejected _ s l1 hb1
      have hfresh1 : ∀ e ∈ l1, sameNT nm tp e = true → e.2.Version ≤ v2 :=
        fun e he hm => hfresh e (hl1sub e he) hm
      have hscanA2 : scanStaleDelete nm tp v2 l1 = (true, F) := by
        rw [scan_all_le nm tp v2 l1 hfresh1, hl1filter]
      have hsetA2 : setRecord { r with Version := v2 }
          { s with records := l1 } = (true, s2) :=
        setRecord_scan_applied _ { s with records := l1 } F hscanA2 hFnokey
      have e1 : (setRecord { r with Version := v2 }
          (setRecord { r with Version := v1 } s).2).2 =
          (setRecord { r with Version := v2 } { s with records := l1 }).2 := by
        rw [hsetA1]
      rw [e1, hsetA2]
  exact ⟨hA.trans hB.symm, hA⟩

/-- A pre-existing RRset member far newer than both writes. -/
def c3Pre : ARecord := { Name := "app.example.com", IP := "192.0.2.1", Version := 100 }

/-- Store holding `c3Pre`. -/
def c3St : Store := (addRecord c3Pre {}).2

/-- The record identity being written (versions supplied at use sites). -/
def c3R : ARecord := { Name := "app.example.com", IP := "192.0.2.9" }

/-- C3 counterexample: with a member of the RRset at version 100 already
stored, writing the identity at v1 = 1 then v2 = 2 (and in the reverse
order) leaves the store exactly as it was: the final state does *not* carry
the v2 write, contradicting the claim as stated. -/
theorem c3_counterexample :
    (setRecord { c3R with Version := 2 }
        (setRecord { c3R with Version := 1 } c3St).2).2 = c3St ∧
    (setRecord { c3R with Version := 1 }
        (setRecord { c3R with Version := 2 } c3St).2).2 = c3St ∧
    lookupA (recordKey (normRec { c3R with Version := 2 })) c3St.records = none ∧
    c3St.records.all (fun e => e.2.Version = 100) = true := by decide

/-- A store with one stale member of the written identity's RRset. -/
def c3WPre : ARecord := { Name := "app.example.com", IP := "192.0.2.1", Version := 0 }

/-- Witness pre-state for the amended C3. -/
def c3W : Store := (addRecord c3WPre {}).2

/-- Witness for the amended C3 at a concrete input: both write orders agree. -/
theorem c3_witness :
    (setRecord { c3R with Version := 2 }
        (setRecord { c3R with Version := 1 } c3W).2).2 =
      (setRecord { c3R with Version := 1 }
        (setRecord { c3R with Version := 2 } c3W).2).2 :=
  (c3_setRecord_lww_commute c3W c3R 1 2 (by decide) (by decide) (by decide)).1

/-! ## C2 — empty-answer classification (NXDOMAIN / NODATA / REFUSED) -/

/-- C2 (amended): when type dispatch leaves the answer section empty, the
response for first question `(qn, qt)` is classified by the longest-match
zone: inside a managed zone the rcode is NOERROR exactly when the name
exists *and* `qt` is one of the supported types (A, AAAA, TXT, CNAME, MX,
ANY), NXDOMAIN otherwise, the zone's synthesized SOA filling the authority
section in both cases; outside every managed zone the query is REFUSED. -/
theorem c2_empty_answer_classification (shuf : List RR → List RR) (st : Store)
    (qn : String) (qt : Nat) (qs : List (String × Nat))
    (hans : dispatchAnswers shuf st ((qn, qt) :: qs) = []) :
    (∀ z, bestZone st (normalizeName qn) = some z →
      (resolveDNS shuf st ((qn, qt) :: qs)).authority = [soaForZone z] ∧
      (resolveDNS shuf st ((qn, qt) :: qs)).rcode =
        (if hasName st (normalizeName qn) ∧ supportedQtype qt then rcodeSuccess
         else rcodeNameError)) ∧
    (bestZone st (normalizeName qn) = none →
      (resolveDNS shuf st ((qn, qt) :: qs)).rcode = rcodeRefused ∧
      (resolveDNS shuf st ((qn, qt) :: qs)).authority = []) ∧
    (resolveDNS shuf st ((qn, qt) :: qs)).answer = [] := by
  refine ⟨?_, ?_, ?_⟩
  · intro z hbz
    by_cases hcond : hasName st (normalizeName qn) ∧ supportedQtype qt
    · have hred : resolveDNS shuf st ((qn, qt) :: qs) =
          { answer := [], authority := [soaForZone z], rcode := rcodeSuccess,
            authoritative := true } := by
        simp only [resolveDNS, hans, List.length_nil, List.head?_cons]
        simp only [hbz]
        rw [if_pos trivial, if_pos hcond]
      rw [hred, if_pos hcond]
      exact ⟨rfl, rfl⟩
    · have hred : resolveDNS shuf st ((qn, qt) :: qs) =
          { answer := [], authority := [soaForZone z], rcode := rcodeNameError,
            authoritative := true } := by
        simp only [resolveDNS, hans, List.length_nil, List.head?_cons]
        simp only [hbz]
        rw [if_pos trivial, if_neg hcond]
      rw [hred, if_neg hcond]
      exact ⟨rfl, rfl⟩
  · intro hbz
    have hred : resolveDNS shuf st ((qn, qt) :: qs) =
        { answer := [], authority := [], rcode := rcodeRefused,
          authoritative := true } := by
      simp only [resolveDNS, hans, List.length_nil, List.head?_cons]
      simp only [hbz]
      rw [if_pos trivial]
    rw [hred]
    exact ⟨rfl, rfl⟩
  · cases hbz : bestZone st (normalizeName qn) with
    | some z =>
      by_cases hcond : hasName st (normalizeName qn) ∧ supportedQtype qt <;>
        · simp only [resolveDNS, hans, List.length_nil, List.head?_cons]
          simp only [hbz]
          simp [hcond]
    | none =>
      simp only [resolveDNS, hans, List.length_nil, List.head?_cons]
      simp only [hbz]
      simp

/-- The zone of the C2 scenario. -/
def c2Zone : ZoneConfig :=
  { Zone := "example.com", NS := ["ns1.example.com"], SOATTL := 60, Serial := 1 }

/-- Store with the zone and an A record at `app.example.com.`. -/
def c2St : Store :=
  (setRecord
    { Name := "app.example.com", IP := "198.51.100.10", TTL := 25,
      Version := 1, Zone := "example.com" }
    ((upsertZone c2Zone {}).2)).2

/-- C2 counterexample: an NS query for `app.example.com.` — a name that
exists (it has an A record) inside the managed zone — dispatches to an empty
answer, and the resolver answers NXDOMAIN, not the NOERROR the claim
requires for every existing name. -/
theorem c2_counterexample :
    hasName c2St "app.example.com." = true ∧
    bestZone c2St "app.example.com." = some (normZone c2Zone) ∧
    (resolveDNS id c2St [("app.example.com.", typeNS)]).answer = [] ∧
    (resolveDNS id c2St [("app.example.com.", typeNS)]).rcode =
      rcodeNameError := by decide

/-- Witness for the amended C2 at the same concrete input: the authority
section carries the synthesized SOA and the rcode follows the amended
classification. -/
theorem c2_witness :
    (resolveDNS id c2St [("app.example.com.", typeNS)]).authority =
      [soaForZone (normZone c2Zone)] ∧
    (resolveDNS id c2St [("app.example.com.", typeNS)]).rcode =
      (if hasName c2St (normalizeName "app.example.com.") ∧
          supportedQtype typeNS then rcodeSuccess
       else rcodeNameError) :=
  (c2_empty_answer_classification id c2St "app.example.com." typeNS []
    (by decide)).1 (normZone c2Zone) (by decide)

/-! ## C9 — MX answers: complete, sorted by (preference, target), no shuffle -/

/-- The `*dns.MX` entry the MX branch builds from a stored record. -/
def mxEmit (qn : String) (rec : ARecord) : MXRR :=
  MXRR.mk (normalizeName qn) rec.TTL rec.Priority (normalizeName rec.Target)

/-- The wire RR for an MX entry. -/
def mxToRR (m : MXRR) : RR := RR.mx m.name m.ttl m.pref m.mx

/-- The sort key of an emitted MX answer. -/
def mxKeyRR : RR → Nat × String
  | RR.mx _ _ p m => (p, m)
  | _ => (0, "")

/-- The resolver's answer section is exactly the type-dispatch output (the
empty-answer classification only touches rcode and authority). -/
theorem resolveDNS_answer (shuf : List RR → List RR) (s : Store)
    (qs : List (String × Nat)) :
    (resolveDNS shuf s qs).answer = dispatchAnswers shuf s qs := by
  simp only [resolveDNS]
  repeat' split
  all_goals rfl

/-- The MX branch of the type dispatch: build, stable-sort, emit. -/
theorem questionAnswers_mx (shuf : List RR → List RR) (s : Store)
    (qn : String) :
    questionAnswers shuf s qn typeMX =
      (List.insertionSort (fun a b => ¬ mxLess b a)
        ((getRecords s (normalizeName qn) typeMX).map (mxEmit qn))).map mxToRR := by
  simp only [questionAnswers]
  rw [if_neg (by decide), if_neg (by decide), if_neg (by decide),
    if_neg (by decide), if_pos trivial]
  rfl

/-- `charListLt` computes the lexicographic order on `List Char`. -/
theorem charListLt_iff : ∀ as bs : List Char, charListLt as bs = true ↔ as < bs := by
  intro as
  induction as with
  | nil =>
    intro bs
    cases bs with
    | nil =>
      constructor
      · intro h; exact absurd h (by simp [charListLt])
      · intro h; cases h
    | cons b bs =>
      constructor
      · intro _; exact List.Lex.nil
      · intro _; rfl
  | cons a as ih =>
    intro bs
    cases bs with
    | nil =>
      constructor
      · intro h; exact absurd h (by simp [charListLt])
      · intro h; cases h
    | cons b bs =>
      by_cases hab : a < b
      · constructor
        · intro _; exact List.Lex.rel hab
        · intro _; simp [charListLt, hab]
      · by_cases hba : b < a
        · constructor
          · intro h
            rw [charListLt, if_neg hab, if_pos hba] at h
            exact absurd h (by simp)
          · intro h
            cases h with
            | cons h' => exact absurd hba (lt_irrefl _)
            | rel h' => exact absurd h' hab
        · have heq : a = b := le_antisymm (not_lt.mp hba) (not_lt.mp hab)
          subst heq
          rw [charListLt, if_neg hab, if_neg hba]
          constructor
          · intro h; exact List.Lex.cons ((ih bs).mp h)
          · intro h
            cases h with
            | cons h' => exact (ih bs).mpr h'
            | rel h' => exact absurd h' hab

/-- `goStringLt` computes `String.<`. -/
theorem goStringLt_iff (a b : String) : goStringLt a b = true ↔ a < b :=
  (charListLt_iff a.data b.data).trans String.lt_iff_toList_lt.symm

/-- The comparison `sort.SliceStable` leaves behind is the lexicographic
order on `(preference, target)`. -/
theorem mxRel_iff (a b : MXRR) :
    (¬ mxLess b a = true) ↔ toLex (a.pref, a.mx) ≤ toLex (b.pref, b.mx) := by
  rw [Prod.Lex.le_iff]
  unfold mxLess
  by_cases h : b.pref = a.pref
  · rw [if_pos h]
    rw [show (¬ goStringLt b.mx a.mx = true ↔ ¬ b.mx < a.mx) from
      not_congr (goStringLt_iff b.mx a.mx), not_lt]
    constructor
    · intro hle
      exact Or.inr ⟨h.symm, hle⟩
    · rintro (hlt | ⟨-, hle⟩)
      · rw [h] at hlt
        exact absurd hlt (lt_irrefl _)
      · exact hle
  · rw [if_neg h]
    simp only [decide_eq_true_eq]
    rw [not_lt]
    constructor
    · intro hle
      exact Or.inl (lt_of_le_of_ne hle (fun hh => h hh.symm))
    · rintro (hlt | ⟨heq, -⟩)
      · exact le_of_lt hlt
      · exact absurd heq.symm h

/-- Permutation-equal record maps produce permutation-equal `getRecords`
results. -/
theorem getRecords_perm (st₁ st₂ : Store) (name : String) (qt : Nat)
    (h : st₁.records.Perm st₂.records) :
    (getRecords st₁ name qt).Perm (getRecords st₂ name qt) := by
  unfold getRecords
  refine (List.perm_insertionSort _ _).trans (.trans ?_ (List.perm_insertionSort _ _).symm)
  exact ((h.map _).filter _)

/-- C9: for an MX query, the emitted answer list contains exactly the MX
members of the name, is sorted ascending by `(preference, target)` — no
shuffle is applied (`shuf` is arbitrary and unused) — and is identical
across repeated queries against the same store state (any iteration order of
the record map, any shuffle seed), provided the RRset members have pairwise
distinct `(priority, target)` identities (guaranteed by the store's value
keys). -/
theorem c9_mx_sorted_complete_deterministic
    (shuf₁ shuf₂ : List RR → List RR) (st₁ st₂ : Store) (qn : String)
    (hperm : st₁.records.Perm st₂.records)
    (hdist : ((getRecords st₁ (normalizeName qn) typeMX).map (mxEmit qn)).Pairwise
      (fun a b => ((a.pref, a.mx) : Nat × String) ≠ (b.pref, b.mx))) :
    (resolveDNS shuf₁ st₁ [(qn, typeMX)]).answer =
      (resolveDNS shuf₂ st₂ [(qn, typeMX)]).answer ∧
    (resolveDNS shuf₁ st₁ [(qn, typeMX)]).answer.Perm
      (((getRecords st₁ (normalizeName qn) typeMX).map (mxEmit qn)).map mxToRR) ∧
    (resolveDNS shuf₁ st₁ [(qn, typeMX)]).answer.Pairwise
      (fun x y => toLex (mxKeyRR x) ≤ toLex (mxKeyRR y)) := by
  have hans : ∀ (shuf : List RR → List RR) (st : Store),
      (resolveDNS shuf st [(qn, typeMX)]).answer =
        (List.insertionSort (fun a b => ¬ mxLess b a)
          ((getRecords st (normalizeName qn) typeMX).map (mxEmit qn))).map mxToRR := by
    intro shuf st
    rw [resolveDNS_answer]
    show (([(qn, typeMX)]).map fun q => questionAnswers shuf st q.1 q.2).flatten = _
    rw [List.map_singleton, questionAnswers_mx]
    simp
  haveI htrans : IsTrans MXRR (fun a b => ¬ mxLess b a) :=
    ⟨fun a b c hab hbc =>
      (mxRel_iff a c).mpr (le_trans ((mxRel_iff a b).mp hab) ((mxRel_iff b c).mp hbc))⟩
  haveI htotal : IsTotal MXRR (fun a b => ¬ mxLess b a) :=
    ⟨fun a b => by
      rcases le_total (toLex ((a.pref, a.mx) : Nat × String)) (toLex (b.pref, b.mx)) with h | h
      · exact Or.inl ((mxRel_iff a b).mpr h)
      · exact Or.inr ((mxRel_iff b a).mpr h)⟩
  set M₁ := (getRecords st₁ (normalizeName qn) typeMX).map (mxEmit qn) with hM₁
  set M₂ := (getRecords st₂ (normalizeName qn) typeMX).map (mxEmit qn) with hM₂
  set L₁ := List.insertionSort (fun a b => ¬ mxLess b a) M₁ with hL₁
  set L₂ := List.insertionSort (fun a b => ¬ mxLess b a) M₂ with hL₂
  have hMperm : M₁.Perm M₂ := (getRecords_perm st₁ st₂ (normalizeName qn) typeMX hperm).map _
  have hLperm : L₁.Perm L₂ :=
    (List.perm_insertionSort _ _).trans (hMperm.trans (List.perm_insertionSort _ _).symm)
  have hS₁ : L₁.Pairwise (fun a b => ¬ mxLess b a) :=
    List.sorted_insertionSort _ M₁
  have hS₂ : L₂.Pairwise (fun a b => ¬ mxLess b a) :=
    List.sorted_insertionSort _ M₂
  have hdistL : L₁.Pairwise (fun a b => ((a.pref, a.mx) : Nat × String) ≠ (b.pref, b.mx)) :=
    hdist.perm (List.perm_insertionSort _ M₁).symm (fun {x y} h => Ne.symm h)
  have hLeq : L₁ = L₂ := by
    refine List.Perm.eq_of_sorted ?_ hS₁ hS₂ hLperm
    intro a b ha hb hab hba
    have hk : toLex ((a.pref, a.mx) : Nat × String) = toLex (b.pref, b.mx) :=
      le_antisymm ((mxRel_iff a b).mp hab) ((mxRel_iff b a).mp hba)
    have hk' : ((a.pref, a.mx) : Nat × String) = (b.pref, b.mx) :=
      toLex.injective hk
    by_contra hne
    have hbL₁ : b ∈ L₁ := hLperm.symm.subset hb
    exact (List.Pairwise.forall (fun {x y} h => Ne.symm h) hdistL ha hbL₁ hne) hk'
  refine ⟨?_, ?_, ?_⟩
  · rw [hans shuf₁ st₁, hans shuf₂ st₂, ← hM₁, ← hM₂, ← hL₁, ← hL₂, hLeq]
  · rw [hans shuf₁ st₁, ← hM₁, ← hL₁]
    exact (List.perm_insertionSort _ M₁).map mxToRR
  · rw [hans shuf₁ st₁, ← hM₁, ← hL₁]
    refine List.pairwise_map.mpr ?_
    refine hS₁.imp ?_
    intro a b hab
    show toLex (mxKeyRR (mxToRR a)) ≤ toLex (mxKeyRR (mxToRR b))
    exact (mxRel_iff a b).mp hab

/-- The MX RRset of spec scenario 7: `(10, mail0)` and `(20, mail1)`. -/
def c9St : Store :=
  (addRecord
    { Name := "example.com", rtype := "MX", Target := "mail1.example.com",
      Priority := 20, TTL := 60, Version := 1 }
    ((addRecord
      { Name := "example.com", rtype := "MX", Target := "mail0.example.com",
        Priority := 10, TTL := 60, Version := 1 } {}).2)).2

/-- Witness for C9 at a concrete RRset. -/
theorem c9_witness :
    (resolveDNS id c9St [("example.com.", typeMX)]).answer =
      (resolveDNS (fun l => l.reverse) c9St [("example.com.", typeMX)]).answer ∧
    (resolveDNS id c9St [("example.com.", typeMX)]).answer.Perm
      (((getRecords c9St (normalizeName "example.com.") typeMX).map
        (mxEmit "example.com.")).map mxToRR) ∧
    (resolveDNS id c9St [("example.com.", typeMX)]).answer.Pairwise
      (fun x y => toLex (mxKeyRR x) ≤ toLex (mxKeyRR y)) :=
  c9_mx_sorted_complete_deterministic id (fun l => l.reverse) c9St c9St
    "example.com." (List.Perm.refl _) (by decide)

/-! ## String toolkit: idempotence and commutation of the Go string helpers -/

theorem charOfNat_toNat {n : Nat} (h : n < 55296) :
    (Char.ofNat n).toNat = n := by
  unfold Char.ofNat
  rw [dif_pos (Or.inl h)]
  rfl

theorem goUpperChar_idem (c : Char) :
    goUpperChar (goUpperChar c) = goUpperChar c := by
  by_cases h : 97 ≤ c.toNat ∧ c.toNat ≤ 122
  · have h1 : goUpperChar c = Char.ofNat (c.toNat - 32) := by
      unfold goUpperChar; exact if_pos h
    have h2 : (Char.ofNat (c.toNat - 32)).toNat = c.toNat - 32 :=
      charOfNat_toNat (by omega)
    rw [h1]
    unfold goUpperChar
    rw [h2, if_neg (by omega)]
  · have h1 : goUpperChar c = c := by unfold goUpperChar; exact if_neg h
    rw [h1, h1]

theorem goLowerChar_idem (c : Char) :
    goLowerChar (goLowerChar c) = goLowerChar c := by
  by_cases h : 65 ≤ c.toNat ∧ c.toNat ≤ 90
  · have h1 : goLowerChar c = Char.ofNat (c.toNat + 32) := by
      unfold goLowerChar; exact if_pos h
    have h2 : (Char.ofNat (c.toNat + 32)).toNat = c.toNat + 32 :=
      charOfNat_toNat (by omega)
    rw [h1]
    unfold goLowerChar
    rw [h2, if_neg (by omega)]
  · have h1 : goLowerChar c = c := by unfold goLowerChar; exact if_neg h
    rw [h1, h1]

theorem goSpace_eq_false_of_toNat (c : Char) (h32 : c.toNat ≠ 32)
    (h9 : c.toNat ≠ 9) (h10 : c.toNat ≠ 10) (h11 : c.toNat ≠ 11)
    (h12 : c.toNat ≠ 12) (h13 : c.toNat ≠ 13) (h133 : c.toNat ≠ 133)
    (h160 : c.toNat ≠ 160) : goSpace c = false := by
  unfold goSpace
  simp only [Bool.or_eq_false_iff, decide_eq_false_iff_not]
  exact ⟨⟨⟨⟨⟨⟨⟨fun heq => h32 ((congrArg Char.toNat heq).trans (by rfl)),
    fun heq => h9 ((congrArg Char.toNat heq).trans (by rfl))⟩,
    fun heq => h10 ((congrArg Char.toNat heq).trans (by rfl))⟩,
    fun heq => h11 ((congrArg Char.toNat heq).trans (by rfl))⟩,
    fun heq => h12 ((congrArg Char.toNat heq).trans (by rfl))⟩,
    fun heq => h13 ((congrArg Char.toNat heq).trans (by rfl))⟩,
    fun heq => h133 ((congrArg Char.toNat heq).trans (by rfl))⟩,
    fun heq => h160 ((congrArg Char.toNat heq).trans (by rfl))⟩

theorem goSpace_upperChar (c : Char) : goSpace (goUpperChar c) = goSpace c := by
  by_cases h : 97 ≤ c.toNat ∧ c.toNat ≤ 122
  · have h1 : goUpperChar c = Char.ofNat (c.toNat - 32) := by
      unfold goUpperChar; exact if_pos h
    have h2 : (Char.ofNat (c.toNat - 32)).toNat = c.toNat - 32 :=
      charOfNat_toNat (by omega)
    have hl : goSpace (Char.ofNat (c.toNat - 32)) = false := by
      apply goSpace_eq_false_of_toNat <;> rw [h2] <;> omega
    have hr : goSpace c = false := by
      apply goSpace_eq_false_of_toNat <;> omega
    rw [h1, hl, hr]
  · have h1 : goUpperChar c = c := by unfold goUpperChar; exact if_neg h
    rw [h1]

theorem goSpace_lowerChar (c : Char) : goSpace (goLowerChar c) = goSpace c := by
  by_cases h : 65 ≤ c.toNat ∧ c.toNat ≤ 90
  · have h1 : goLowerChar c = Char.ofNat (c.toNat + 32) := by
      unfold goLowerChar; exact if_pos h
    have h2 : (Char.ofNat (c.toNat + 32)).toNat = c.toNat + 32 :=
      charOfNat_toNat (by omega)
    have hl : goSpace (Char.ofNat (c.toNat + 32)) = false := by
      apply goSpace_eq_false_of_toNat <;> rw [h2] <;> omega
    have hr : goSpace c = false := by
      apply goSpace_eq_false_of_toNat <;> omega
    rw [h1, hl, hr]
  · have h1 : goLowerChar c = c := by unfold goLowerChar; exact if_neg h
    rw [h1]

theorem stringEq_of_data {a b : String} (h : a.data = b.data) : a = b := by
  cases a; cases b; cases h; rfl

/-- `goTrimSpace` written through Mathlib's `rdropWhile`. -/
theorem goTrimSpace_data (s : String) :
    (goTrimSpace s).data =
      List.rdropWhile goSpace (s.data.dropWhile goSpace) := rfl

theorem dropWhile_eq_self_of_prefix {p : Char → Bool} :
    ∀ {l l' : List Char}, List.dropWhile p l = l → l' <+: l →
      List.dropWhile p l' = l' := by
  intro l l' h hpre
  cases l' with
  | nil => rfl
  | cons a t =>
    obtain ⟨rest, hrest⟩ := hpre
    rw [← hrest, List.cons_append, List.dropWhile_cons] at h
    by_cases hp : p a = true
    · rw [if_pos hp] at h
      have hlen := congrArg List.length h
      have hle := (List.dropWhile_sublist (l := t ++ rest) (p := p)).length_le
      simp only [List.length_cons] at hlen
      omega
    · rw [List.dropWhile_cons, if_neg hp]

theorem goTrimSpace_idem (s : String) :
    goTrimSpace (goTrimSpace s) = goTrimSpace s := by
  apply stringEq_of_data
  rw [goTrimSpace_data, goTrimSpace_data s]
  have h1 : List.dropWhile goSpace (s.data.dropWhile goSpace) =
      s.data.dropWhile goSpace := List.dropWhile_idempotent _ _
  have h2 : List.dropWhile goSpace
      (List.rdropWhile goSpace (s.data.dropWhile goSpace)) =
      List.rdropWhile goSpace (s.data.dropWhile goSpace) :=
    dropWhile_eq_self_of_prefix h1 (List.rdropWhile_prefix _ _)
  rw [h2, List.rdropWhile_idempotent]

theorem dropWhile_map_comm {f : Char → Char} {p : Char → Bool}
    (hf : ∀ c, p (f c) = p c) (l : List Char) :
    List.dropWhile p (l.map f) = (List.dropWhile p l).map f := by
  induction l with
  | nil => rfl
  | cons a t ih =>
    rw [List.map_cons, List.dropWhile_cons, List.dropWhile_cons, hf]
    by_cases hp : p a = true
    · rw [if_pos hp, if_pos hp, ih]
    · rw [if_neg hp, if_neg hp, List.map_cons]

theorem rdropWhile_map_comm {f : Char → Char} {p : Char → Bool}
    (hf : ∀ c, p (f c) = p c) (l : List Char) :
    List.rdropWhile p (l.map f) = (List.rdropWhile p l).map f := by
  unfold List.rdropWhile
  rw [← List.map_reverse, dropWhile_map_comm hf, List.map_reverse]

theorem goTrimSpace_map {f : Char → Char}
    (hf : ∀ c, goSpace (f c) = goSpace c) (s : String) :
    goTrimSpace ⟨s.data.map f⟩ = ⟨(goTrimSpace s).data.map f⟩ := by
  apply stringEq_of_data
  show List.rdropWhile goSpace (List.dropWhile goSpace (s.data.map f)) = _
  rw [dropWhile_map_comm hf, rdropWhile_map_comm hf, goTrimSpace_data]

theorem goToUpper_idem (s : String) : goToUpper (goToUpper s) = goToUpper s := by
  apply stringEq_of_data
  show (s.data.map goUpperChar).map goUpperChar = s.data.map goUpperChar
  rw [List.map_map]
  exact List.map_congr_left fun a _ => goUpperChar_idem a

theorem goToLower_idem (s : String) : goToLower (goToLower s) = goToLower s := by
  apply stringEq_of_data
  show (s.data.map goLowerChar).map goLowerChar = s.data.map goLowerChar
  rw [List.map_map]
  exact List.map_congr_left fun a _ => goLowerChar_idem a

theorem goTrimSpace_goToUpper (s : String) :
    goTrimSpace (goToUpper s) = goToUpper (goTrimSpace s) :=
  goTrimSpace_map goSpace_upperChar s

theorem goTrimSpace_goToLower (s : String) :
    goTrimSpace (goToLower s) = goToLower (goTrimSpace s) :=
  goTrimSpace_map goSpace_lowerChar s

/-- Upper-case-and-trim is idempotent — re-normalizing a type tag is a
no-op. -/
theorem upperTrim_idem (x : String) :
    goToUpper (goTrimSpace (goToUpper (goTrimSpace x))) =
      goToUpper (goTrimSpace x) := by
  rw [goTrimSpace_goToUpper, goTrimSpace_idem, goToUpper_idem]

/-- Lower-case-and-trim is idempotent. -/
theorem lowerTrim_idem (x : String) :
    goToLower (goTrimSpace (goToLower (goTrimSpace x))) =
      goToLower (goTrimSpace x) := by
  rw [goTrimSpace_goToLower, goTrimSpace_idem, goToLower_idem]

theorem exceptMap_error {α β γ : Type} (f : α → β) (x : Except γ α) (e : γ) :
    Except.map f x = Except.error e ↔ x = Except.error e := by
  cases x <;> simp [Except.map]

/-- The output of `normalizeRecordType` is always one of the five tags. -/
theorem normalizeRecordType_mem (t : String) :
    normalizeRecordType t = "A" ∨ normalizeRecordType t = "AAAA" ∨
      normalizeRecordType t = "TXT" ∨ normalizeRecordType t = "CNAME" ∨
      normalizeRecordType t = "MX" := by
  simp only [normalizeRecordType]
  by_cases h : goToUpper (goTrimSpace t) = "AAAA" ∨
      goToUpper (goTrimSpace t) = "TXT" ∨
      goToUpper (goTrimSpace t) = "CNAME" ∨ goToUpper (goTrimSpace t) = "MX"
  · rw [if_pos h]
    rcases h with h | h | h | h <;> rw [h] <;> simp
  · rw [if_neg h]
    left
    rfl

/-- The tag `normalizeRecordInput` ends up switching on (coercion plus the
`MX` reinstatement) is always one of the five supported tags. -/
theorem coercedType_mem (t : String) :
    (if t = "MX" then "MX" else normalizeRecordType t) = "A" ∨
      (if t = "MX" then "MX" else normalizeRecordType t) = "AAAA" ∨
      (if t = "MX" then "MX" else normalizeRecordType t) = "TXT" ∨
      (if t = "MX" then "MX" else normalizeRecordType t) = "CNAME" ∨
      (if t = "MX" then "MX" else normalizeRecordType t) = "MX" := by
  by_cases h : t = "MX"
  · rw [if_pos h]
    simp
  · rw [if_neg h]
    exact normalizeRecordType_mem t

/-- C10: the default branch of `normalizeRecordInput`'s type switch is
unreachable.  Every error the function returns is one of the five per-type
value-check messages, and the catch-all message
"type must be A, AAAA, TXT, CNAME or MX" is never returned: after inference
and coercion the type tag is always a supported one. -/
theorem c10_type_tag_error_unreachable (cfg : GoConfig) (s : Store)
    (rec : ARecord) :
    (∀ e, normalizeRecordInput cfg s rec = Except.error e →
        e = errTypeA ∨ e = errTypeAAAA ∨ e = errTypeTXT ∨ e = errTypeCNAME ∨
          e = errTypeMX) ∧
      normalizeRecordInput cfg s rec ≠ Except.error errTypeTag := by
  have hmain : ∀ e, normalizeRecordInput cfg s rec = Except.error e →
      e = errTypeA ∨ e = errTypeAAAA ∨ e = errTypeTXT ∨ e = errTypeCNAME ∨
        e = errTypeMX := by
    intro e he
    simp only [normalizeRecordInput] at he
    rw [exceptMap_error] at he
    rcases coercedType_mem (inferRecordType rec) with h | h | h | h | h
    · rw [h, if_pos rfl] at he
      split at he
      · split at he
        · exact Or.inl (Except.error.inj he).symm
        · exact Except.noConfusion he
      · exact Or.inl (Except.error.inj he).symm
    · rw [h, if_neg (by decide), if_pos rfl] at he
      split at he
      · split at he
        · exact Or.inr (Or.inl (Except.error.inj he).symm)
        · exact Except.noConfusion he
      · exact Or.inr (Or.inl (Except.error.inj he).symm)
    · rw [h, if_neg (by decide), if_neg (by decide), if_pos rfl] at he
      split at he
      · exact Or.inr (Or.inr (Or.inl (Except.error.inj he).symm))
      · exact Except.noConfusion he
    · rw [h, if_neg (by decide), if_neg (by decide), if_neg (by decide),
        if_pos rfl] at he
      split at he
      · exact Or.inr (Or.inr (Or.inr (Or.inl (Except.error.inj he).symm)))
      · exact Except.noConfusion he
    · rw [h, if_neg (by decide), if_neg (by decide), if_neg (by decide),
        if_neg (by decide), if_pos rfl] at he
      split at he
      · exact Or.inr (Or.inr (Or.inr (Or.inr (Except.error.inj he).symm)))
      · exact Except.noConfusion he
  refine ⟨hmain, fun hcontra => ?_⟩
  rcases hmain errTypeTag hcontra with h | h | h | h | h <;>
    exact absurd h (by decide)

def c10Rec : ARecord := { rtype := "A", IP := "" }

/-- `normalizeRecordType` on an already upper-cased/trimmed tag outside the
four preserved ones collapses to `"A"`. -/
theorem normalizeRecordType_eq_A (t : String)
    (h1 : goToUpper (goTrimSpace t) = t)
    (h2 : t ≠ "AAAA") (h3 : t ≠ "TXT") (h4 : t ≠ "CNAME") (h5 : t ≠ "MX") :
    normalizeRecordType t = "A" := by
  simp only [normalizeRecordType, h1]
  rw [if_neg (fun hc => hc.elim h2 (fun hc => hc.elim h3
    (fun hc => hc.elim h4 h5)))]

/-- A non-empty supplied tag passes through the inference step unchanged
(after upper-casing and trimming). -/
theorem inferRecordType_of_ne (rec : ARecord)
    (hne : goToUpper (goTrimSpace rec.rtype) ≠ "") :
    inferRecordType rec = goToUpper (goTrimSpace rec.rtype) := by
  simp only [inferRecordType]
  rw [if_neg hne]

def c4Req : UpsertRecordRequest := { rtype := "NS", IP := "1.2.3.4" }

def c4Cfg : GoConfig := { DefaultNS := ["ns1.example.com"] }

def c4Rec : ARecord := { rtype := "NS", IP := "1.2.3.4" }

/-- C4 counterexample: a PUT record request with the unsupported type tag
`"NS"` does not fail: it succeeds, and the record is stored with type `"A"`. -/
theorem c4_counterexample :
    goToUpper (goTrimSpace c4Req.rtype) = "NS" ∧
      (handleRecordPut c4Cfg {} "pool.example.com" c4Req 1000 500).toOption.map
          (fun p => (p.1.rtype, (lookupA (recordKey p.1) p.2.records).isSome))
        = some ("A", true) := by decide

theorem rtypeIte {c : Prop} [Decidable c] {a b : ARecord} {t : String}
    (ha : a.rtype = t) (hb : b.rtype = t) : (if c then a else b).rtype = t := by
  split
  · exact ha
  · exact hb

/-- C4 (amended): a record request supplying a non-empty type tag outside
the five supported ones is NOT rejected with a type validation error.
`normalizeRecordType` silently coerces the tag to `A`, so the request is
validated as a type-A record: it either fails the IPv4 value check
(`errTypeA`) or succeeds with stored type `"A"`. -/
theorem c4_unknown_type_coerced_to_A (cfg : GoConfig) (s : Store)
    (rec : ARecord)
    (hne : goToUpper (goTrimSpace rec.rtype) ≠ "")
    (hA : goToUpper (goTrimSpace rec.rtype) ≠ "A")
    (hAAAA : goToUpper (goTrimSpace rec.rtype) ≠ "AAAA")
    (hTXT : goToUpper (goTrimSpace rec.rtype) ≠ "TXT")
    (hCNAME : goToUpper (goTrimSpace rec.rtype) ≠ "CNAME")
    (hMX : goToUpper (goTrimSpace rec.rtype) ≠ "MX") :
    (∀ e, normalizeRecordInput cfg s rec = Except.error e → e = errTypeA) ∧
      ∀ r, normalizeRecordInput cfg s rec = Except.ok r → r.rtype = "A" := by
  have hnrt : normalizeRecordType (goToUpper (goTrimSpace rec.rtype)) = "A" :=
    normalizeRecordType_eq_A _ (upperTrim_idem rec.rtype) hAAAA hTXT hCNAME hMX
  have hcoerce : (if inferRecordType rec = "MX" then "MX"
      else normalizeRecordType (inferRecordType rec)) = "A" := by
    rw [inferRecordType_of_ne rec hne, if_neg hMX, hnrt]
  constructor
  · intro e he
    simp only [normalizeRecordInput] at he
    rw [exceptMap_error] at he
    rw [hcoerce, if_pos rfl] at he
    split at he
    · split at he
      · exact (Except.error.inj he).symm
      · exact Except.noConfusion he
    · exact (Except.error.inj he).symm
  · intro r hr
    simp only [normalizeRecordInput] at hr
    rw [hcoerce, if_pos rfl] at hr
    split at hr
    · split at hr
      · exact Except.noConfusion hr
      · have hfr := Except.ok.inj hr
        subst hfr
        exact rtypeIte rfl rfl
    · exact Except.noConfusion hr

/-- Witness for C4 at a concrete input: the `"NS"`-tagged record request
comes back as a successfully validated record of type `"A"`. -/
theorem c4_witness :
    (normalizeRecordInput {} {} c4Rec).toOption.map ARecord.rtype
      = some "A" := by
  have h := (c4_unknown_type_coerced_to_A {} {} c4Rec (by decide) (by decide)
      (by decide) (by decide) (by decide) (by decide)).2
  cases hres : normalizeRecordInput {} {} c4Rec with
  | error e =>
    have hsome : (normalizeRecordInput {} {} c4Rec).toOption.isSome = true := by
      decide
    rw [hres] at hsome
    exact absurd hsome (by simp [Except.toOption])
  | ok r =>
    simp only [Except.toOption, Option.map]
    rw [h r hres]

/-- Witness for C10 at a concrete failing record: a type-A record with an
empty IP yields exactly the IPv4 value-check error. -/
theorem c10_witness :
    errTypeA = errTypeA ∨ errTypeA = errTypeAAAA ∨ errTypeA = errTypeTXT ∨
      errTypeA = errTypeCNAME ∨ errTypeA = errTypeMX :=
  (c10_type_tag_error_unreachable {} {} c10Rec).1 errTypeA rfl

/-- C6: a PUT `/v1/zones/{zone}` request (with a usable zone name) fails
with the MissingZoneNS error exactly when all three NS sources are empty:
the request body's `ns` normalizes to nothing, any existing in-memory zone
has an empty NS list, and `DEFAULT_NS` is not configured.  Moreover a
successful upsert always draws its NS list from one of those three sources —
there is no hard-coded fallback. -/
theorem c6_zone_ns_all_sources_required (cfg : GoConfig) (s : Store)
    (rawZone : String) (req : UpsertZoneRequest) (nowUnix : Nat) (nowT : Int)
    (hzone : normalizeName rawZone ≠ ".") :
    (handleZoneByName cfg s rawZone req nowUnix nowT =
        Except.error errZoneNSRequired ↔
      normalizeNames req.NS = [] ∧
        (∀ ex, getZone s (normalizeName rawZone) = some ex → ex.NS = []) ∧
        cfg.DefaultNS = []) ∧
      ∀ z st, handleZoneByName cfg s rawZone req nowUnix nowT =
          Except.ok (z, st) →
        z.NS = normalizeNames req.NS ∨
          (∃ ex, getZone s (normalizeName rawZone) = some ex ∧ z.NS = ex.NS) ∨
          z.NS = cfg.DefaultNS := by
  simp only [handleZoneByName]
  rw [if_neg hzone]
  by_cases hq : (normalizeNames req.NS).length = 0
  · rw [if_pos hq]
    cases hg : getZone s (normalizeName rawZone) with
    | some ex =>
      dsimp only
      by_cases hex : ex.NS.length > 0
      · rw [if_pos hex, if_neg (by omega)]
        refine ⟨⟨fun he => Except.noConfusion he, ?_⟩, ?_⟩
        · rintro ⟨-, hall, -⟩
          exact absurd (hall ex rfl) (List.ne_nil_of_length_pos hex)
        · intro z st hok
          injection Except.ok.inj hok with hz hst
          exact Or.inr (Or.inl ⟨ex, rfl, by rw [← hz]⟩)
      · rw [if_neg hex]
        simp only [defaultNSForZone]
        by_cases hd : cfg.DefaultNS.length > 0
        · rw [if_pos hd, if_neg (by omega)]
          refine ⟨⟨fun he => Except.noConfusion he, ?_⟩, ?_⟩
          · rintro ⟨-, -, hdn⟩
            exact absurd hdn (List.ne_nil_of_length_pos hd)
          · intro z st hok
            injection Except.ok.inj hok with hz hst
            exact Or.inr (Or.inr (by rw [← hz]))
        · rw [if_neg hd, if_pos List.length_nil]
          refine ⟨⟨fun _ => ?_, fun _ => rfl⟩, ?_⟩
          · refine ⟨List.length_eq_zero.mp hq, ?_, ?_⟩
            · intro ex' hex'
              cases Option.some.inj hex'
              exact List.length_eq_zero.mp (by omega)
            · exact List.length_eq_zero.mp (by omega)
          · intro z st hok
            exact Except.noConfusion hok
    | none =>
      dsimp only
      simp only [defaultNSForZone]
      by_cases hd : cfg.DefaultNS.length > 0
      · rw [if_pos hd, if_neg (by omega)]
        refine ⟨⟨fun he => Except.noConfusion he, ?_⟩, ?_⟩
        · rintro ⟨-, -, hdn⟩
          exact absurd hdn (List.ne_nil_of_length_pos hd)
        · intro z st hok
          injection Except.ok.inj hok with hz hst
          exact Or.inr (Or.inr (by rw [← hz]))
      · rw [if_neg hd, if_pos List.length_nil]
        refine ⟨⟨fun _ => ?_, fun _ => rfl⟩, ?_⟩
        · refine ⟨List.length_eq_zero.mp hq, ?_, ?_⟩
          · intro ex' hex'
            exact Option.noConfusion hex'
          · exact List.length_eq_zero.mp (by omega)
        · intro z st hok
          exact Except.noConfusion hok
  · rw [if_neg hq, if_neg hq]
    refine ⟨⟨fun he => Except.noConfusion he, ?_⟩, ?_⟩
    · rintro ⟨hq', -, -⟩
      exact absurd (by simp [hq']) hq
    · intro z st hok
      injection Except.ok.inj hok with hz hst
      exact Or.inl (by rw [← hz])

/-- Witness for C6: with no request NS, no stored zone, and no configured
default NS, the zone upsert fails with the MissingZoneNS message. -/
theorem c6_witness :
    handleZoneByName {} {} "example.com" {} 500 1000 =
      Except.error errZoneNSRequired := by
  refine ((c6_zone_ns_all_sources_required {} {} "example.com" {} 500 1000
      (by decide)).1).mpr ⟨rfl, ?_, rfl⟩
  intro ex hex
  have h0 : getZone ({} : Store) (normalizeName "example.com") = none := by
    decide
  rw [h0] at hex
  exact Option.noConfusion hex

theorem string_data_append (a b : String) :
    (a ++ b).data = a.data ++ b.data := rfl

theorem dot_data : ("." : String).data = ['.'] := rfl

theorem empty_data : ("" : String).data = [] := rfl

theorem goToLower_append (a b : String) :
    goToLower (a ++ b) = goToLower a ++ goToLower b := by
  apply stringEq_of_data
  show ((a ++ b).data).map goLowerChar =
    (a.data.map goLowerChar) ++ (b.data.map goLowerChar)
  rw [string_data_append]
  exact List.map_append _ _ _

theorem trimFixed_drop {t : String} (h : goTrimSpace t = t) :
    List.dropWhile goSpace t.data = t.data := by
  have hd := congrArg String.data h
  rw [goTrimSpace_data] at hd
  have h1 : (List.rdropWhile goSpace
      (t.data.dropWhile goSpace)).length ≤
      (t.data.dropWhile goSpace).length :=
    (List.rdropWhile_prefix _ _).length_le
  have h2 : (t.data.dropWhile goSpace).length ≤ t.data.length :=
    (List.dropWhile_sublist _).length_le
  have h3 := congrArg List.length hd
  exact (List.dropWhile_sublist _).eq_of_length (by omega)

theorem dropWhile_append_eq_self {p : Char → Bool} {l m : List Char}
    (h : List.dropWhile p l = l) (hl : l ≠ []) :
    List.dropWhile p (l ++ m) = l ++ m := by
  cases l with
  | nil => exact absurd rfl hl
  | cons a t =>
    rw [List.dropWhile_cons] at h
    rw [List.cons_append, List.dropWhile_cons]
    by_cases hp : p a = true
    · rw [if_pos hp] at h
      have hlen := congrArg List.length h
      have hle := (List.dropWhile_sublist (p := p) (l := t)).length_le
      simp only [List.length_cons] at hlen
      omega
    · rw [if_neg hp]

theorem trim_append_dot {t : String} (htr : goTrimSpace t = t)
    (ht : t ≠ "") : goTrimSpace (t ++ ".") = t ++ "." := by
  apply stringEq_of_data
  rw [goTrimSpace_data, string_data_append, dot_data]
  have hne : t.data ≠ [] := fun hc => ht (stringEq_of_data hc)
  rw [dropWhile_append_eq_self (trimFixed_drop htr) hne]
  exact List.rdropWhile_concat_neg _ _ _ (by decide)

theorem fqdn_cases (t : String) : fqdn t = t ∨ fqdn t = t ++ "." := by
  unfold fqdn
  by_cases h : isFqdn t = true
  · rw [if_pos h]
    exact Or.inl rfl
  · rw [if_neg h]
    exact Or.inr rfl

theorem append_dot_ne_empty (u : String) : u ++ "." ≠ "" := by
  intro hc
  have h := congrArg String.data hc
  rw [string_data_append, dot_data, empty_data] at h
  simp at h

theorem append_dot_ne_root (u : String) (hu : u ≠ "") : u ++ "." ≠ "." := by
  intro hc
  have h := congrArg String.data hc
  rw [string_data_append, dot_data] at h
  have h3 := congrArg List.length h
  rw [List.length_append] at h3
  simp at h3
  exact hu (stringEq_of_data (List.eq_nil_of_length_eq_zero h3))

theorem fqdn_ne_root {t : String} (h0 : t ≠ "") (h1 : t ≠ ".") :
    fqdn t ≠ "." := by
  rcases fqdn_cases t with h | h
  · rw [h]
    exact h1
  · rw [h]
    exact append_dot_ne_root t h0

/-- Re-normalizing a non-root output of `normalizeName` never collapses it
to the bare root. -/
theorem normalizeName_image_ne_root (y : String)
    (h : normalizeName y ≠ ".") :
    normalizeName (normalizeName y) ≠ "." := by
  simp only [normalizeName] at h ⊢
  set u := goTrimSpace (goToLower y) with hu
  by_cases hu0 : u = ""
  · rw [if_pos hu0] at h
    exact absurd rfl h
  · rw [if_neg hu0] at h ⊢
    have hlowu : goToLower u = u := by
      rw [hu, ← goTrimSpace_goToLower, goToLower_idem]
    have htru : goTrimSpace u = u := by
      rw [hu, goTrimSpace_idem]
    have hune : u ≠ "." := by
      intro hc
      apply h
      rw [hc]
      decide
    rcases fqdn_cases u with hf | hf
    · rw [hf, hlowu, htru, if_neg hu0]
      exact h
    · have hld : goToLower ("." : String) = "." := by decide
      rw [hf, goToLower_append, hlowu, hld, trim_append_dot htru hu0,
        if_neg (append_dot_ne_empty u)]
      exact fqdn_ne_root (append_dot_ne_empty u) (append_dot_ne_root u hu0)

/-- Every element of a `normalizeNames` output survives another
normalization pass without collapsing to the root. -/
theorem normalizeNames_elem_ok (l : List String) :
    ∀ x ∈ normalizeNames l, normalizeName x ≠ "." := by
  intro x hx
  obtain ⟨hmem, hne⟩ := List.mem_filter.mp hx
  obtain ⟨y, hy, hxy⟩ := List.mem_map.mp hmem
  subst hxy
  exact normalizeName_image_ne_root y (by simpa using hne)

theorem normalizeNames_ne_nil {l : List String} (hne : l ≠ [])
    (hall : ∀ y ∈ l, normalizeName y ≠ ".") :
    normalizeNames l ≠ [] := by
  cases l with
  | nil => exact absurd rfl hne
  | cons a t =>
    intro hc
    have hmem : normalizeName a ∈ normalizeNames (a :: t) :=
      List.mem_filter.mpr ⟨List.mem_map_of_mem _ (List.mem_cons_self a t),
        by simpa using hall a (List.mem_cons_self a t)⟩
    rw [hc] at hmem
    exact absurd hmem (List.not_mem_nil _)

/-- Well-formed name-server list: non-empty, and no entry normalizes to the
bare root (the form `DEFAULT_NS` parsing and `normalizeNames` guarantee). -/
def nsOK (ns : List String) : Prop :=
  ns ≠ [] ∧ ∀ y ∈ ns, normalizeName y ≠ "."

theorem nsOK_normalizeNames {ns : List String} (h : nsOK ns) :
    nsOK (normalizeNames ns) :=
  ⟨normalizeNames_ne_nil h.1 h.2, normalizeNames_elem_ok ns⟩

theorem mem_setA {α : Type} {p : String × α} :
    ∀ {l : List (String × α)} {k : String} {v : α},
      p ∈ setA l k v → p = (k, v) ∨ p ∈ l := by
  intro l
  induction l with
  | nil =>
    intro k v hp
    simp only [setA] at hp
    exact Or.inl (List.mem_singleton.mp hp)
  | cons e t ih =>
    obtain ⟨k1, v1⟩ := e
    intro k v hp
    simp only [setA] at hp
    by_cases hk : k1 = k
    · rw [if_pos hk] at hp
      rcases List.mem_cons.mp hp with h | h
      · exact Or.inl h
      · exact Or.inr (List.mem_cons_of_mem _ h)
    · rw [if_neg hk] at hp
      rcases List.mem_cons.mp hp with h | h
      · exact Or.inr (by rw [h]; exact List.mem_cons_self _ _)
      · rcases ih h with h2 | h2
        · exact Or.inl h2
        · exact Or.inr (List.mem_cons_of_mem _ h2)

theorem lookupA_mem {α : Type} {l : List (String × α)} {k : String} {v : α}
    (h : lookupA k l = some v) : ∃ k1, (k1, v) ∈ l := by
  unfold lookupA at h
  cases hf : l.find? (fun e => e.1 = k) with
  | none =>
    rw [hf] at h
    exact Option.noConfusion h
  | some e =>
    rw [hf] at h
    have hv := Option.some.inj h
    have hmem := List.mem_of_find?_eq_some hf
    refine ⟨e.1, ?_⟩
    rw [← hv]
    exact hmem

/-- `upsertZone` preserves well-formedness of all stored NS lists, provided
the incoming zone's list is itself well-formed. -/
theorem upsertZone_nsOK {z : ZoneConfig} {s : Store}
    (hS : ∀ p ∈ s.zones, nsOK (p.2).NS) (hz : nsOK z.NS) :
    ∀ p ∈ (upsertZone z s).2.zones, nsOK (p.2).NS := by
  intro p hp
  simp only [upsertZone] at hp
  split at hp
  · split at hp
    · exact hS p hp
    · rcases mem_setA hp with h | h
      · rw [h]
        exact nsOK_normalizeNames hz
      · exact hS p h
  · rcases mem_setA hp with h | h
    · rw [h]
      exact nsOK_normalizeNames hz
    · exact hS p h

theorem defaultNSForZone_sub (cfg : GoConfig) (z : String) :
    ∀ y ∈ defaultNSForZone cfg z, y ∈ cfg.DefaultNS := by
  intro y hy
  simp only [defaultNSForZone] at hy
  split at hy
  · exact hy
  · exact absurd hy (List.not_mem_nil _)

def c5Ev : SyncEvent :=
  { Op := "zone",
    ZoneConfig := some { Zone := "example.com", NS := [], SOATTL := 60,
                         Serial := 7, UpdatedAt := 0 } }

/-- C5 counterexample: the sync-event zone ingest (`op = "zone"`) performs
no NS validation, so a peer-supplied zone with an empty NS list is stored
successfully — the stored zone's name-server list is empty, falsifying the
invariant for that ingest path. -/
theorem c5_counterexample :
    (handleSyncEventZone c5Ev {}).toOption.map
        (fun st => (lookupA "example.com." st.zones).map ZoneConfig.NS) =
      some (some []) := by decide

/-- C5 (amended): the non-empty-NS invariant holds for the control-API zone
upsert path: starting from a store whose zones all have well-formed NS
lists and a configuration whose `DEFAULT_NS` entries do not normalize to the
root, every zone stored after a successful PUT `/v1/zones/{zone}` has a
non-empty (well-formed) NS list.  The sync-event ingest path does not
validate NS and breaks the invariant (see the counterexample). -/
theorem c5_api_zone_upsert_ns_nonempty (cfg : GoConfig) (s : Store)
    (rawZone : String) (req : UpsertZoneRequest) (nowUnix : Nat) (nowT : Int)
    (hS : ∀ p ∈ s.zones, nsOK (p.2).NS)
    (hD : ∀ y ∈ cfg.DefaultNS, normalizeName y ≠ ".") :
    ∀ z st, handleZoneByName cfg s rawZone req nowUnix nowT =
        Except.ok (z, st) →
      ∀ p ∈ st.zones, nsOK (p.2).NS := by
  intro z st hok
  simp only [handleZoneByName] at hok
  by_cases hzone : normalizeName rawZone = "."
  · rw [if_pos hzone] at hok
    exact Except.noConfusion hok
  rw [if_neg hzone] at hok
  by_cases hq : (normalizeNames req.NS).length = 0
  · rw [if_pos hq] at hok
    cases hg : getZone s (normalizeName rawZone) with
    | some ex =>
      rw [hg] at hok
      dsimp only at hok
      by_cases hex : ex.NS.length > 0
      · rw [if_pos hex, if_neg (by omega : ¬ ex.NS.length = 0)] at hok
        injection Except.ok.inj hok with h1 h2
        rw [← h2]
        refine upsertZone_nsOK hS ?_
        obtain ⟨k1, hmem⟩ := lookupA_mem hg
        exact hS (k1, ex) hmem
      · rw [if_neg hex] at hok
        by_cases hd : (defaultNSForZone cfg (normalizeName rawZone)).length = 0
        · rw [if_pos hd] at hok
          exact Except.noConfusion hok
        · rw [if_neg hd] at hok
          injection Except.ok.inj hok with h1 h2
          rw [← h2]
          refine upsertZone_nsOK hS ?_
          show nsOK (defaultNSForZone cfg (normalizeName rawZone))
          exact ⟨fun hc => hd (by rw [hc]; rfl),
            fun y hy => hD y (defaultNSForZone_sub cfg _ y hy)⟩
    | none =>
      rw [hg] at hok
      dsimp only at hok
      by_cases hd : (defaultNSForZone cfg (normalizeName rawZone)).length = 0
      · rw [if_pos hd] at hok
        exact Except.noConfusion hok
      · rw [if_neg hd] at hok
        injection Except.ok.inj hok with h1 h2
        rw [← h2]
        refine upsertZone_nsOK hS ?_
        show nsOK (defaultNSForZone cfg (normalizeName rawZone))
        exact ⟨fun hc => hd (by rw [hc]; rfl),
          fun y hy => hD y (defaultNSForZone_sub cfg _ y hy)⟩
  · rw [if_neg hq, if_neg hq] at hok
    injection Except.ok.inj hok with h1 h2
    rw [← h2]
    refine upsertZone_nsOK hS ?_
    show nsOK (normalizeNames req.NS)
    exact ⟨fun hc => hq (by rw [hc]; rfl), normalizeNames_elem_ok req.NS⟩

def c5Cfg : GoConfig := { DefaultNS := ["ns1.example.com"] }

def c5Z : ZoneConfig :=
  { Zone := "example.com.", NS := ["ns1.example.com"], SOATTL := 20,
    Serial := 500, UpdatedAt := 1000 }

def c5St : Store :=
  { zones := [("example.com.",
      { Zone := "example.com.", NS := ["ns1.example.com."], SOATTL := 20,
        Serial := 500, UpdatedAt := 1000 })] }

/-- Witness for C5 (amended) at a concrete upsert drawing NS from
`DEFAULT_NS`: the stored zone's NS list is well-formed (non-empty). -/
theorem c5_witness : nsOK ["ns1.example.com."] := by
  have hok : handleZoneByName c5Cfg {} "example.com" {} 500 1000 =
      Except.ok (c5Z, c5St) := by rfl
  refine c5_api_zone_upsert_ns_nonempty c5Cfg {} "example.com" {} 500 1000
      (fun p hp => absurd hp (List.not_mem_nil p)) (by decide) c5Z c5St hok
      ("example.com.",
        { Zone := "example.com.", NS := ["ns1.example.com."], SOATTL := 20,
          Serial := 500, UpdatedAt := 1000 }) ?_
  exact List.mem_singleton.mpr rfl

/-- A fixed unpack oracle: the one-byte payload `[0]` is the wire form of a
single type-A question for `pool.example.com.`; everything else is
malformed. -/
def unpack0 : List Nat → Option (List (String × Nat)) :=
  fun p => if p = [0] then some [("pool.example.com.", typeA)] else none

def c8Rec1 : ARecord :=
  { Name := "pool.example.com.", rtype := "A", IP := "1.1.1.1",
    Zone := "example.com." }

def c8Rec2 : ARecord :=
  { Name := "pool.example.com.", rtype := "A", IP := "2.2.2.2",
    Zone := "example.com." }

def c8St : Store :=
  { records := [("k1", c8Rec1), ("k2", c8Rec2)] }

/-- C8 counterexample: the A-RRset shuffle is seeded from the wall clock at
each response, so the GET and POST runs draw independent permutations.  With
the same store and the same question (`"AA"` is the base64url form of the
body `[0]`), a GET whose shuffle is the identity and a POST whose shuffle is
reversal produce different responses — the response bytes are not
identical. -/
theorem c8_counterexample :
    handleDoHGet unpack0 id c8St "AA" ≠
      handleDoHPost unpack0 List.reverse c8St [0] := by decide

/-- C8 (amended): the GET and POST arms are the same function of the wire
payload once the random shuffle is fixed: if the trimmed `dns` parameter is
non-empty and base64url-decodes to the non-empty POST body, both arms
produce the identical response.  (Byte-identity across two separate runs
fails only because each run seeds its own shuffle.) -/
theorem c8_get_post_agree
    (unpack : List Nat → Option (List (String × Nat)))
    (shuf : List RR → List RR) (st : Store) (q : String) (w : List Nat)
    (hq : goTrimSpace q ≠ "")
    (hdec : base64urlDecode (goTrimSpace q) = some w)
    (hw : w ≠ []) :
    handleDoHGet unpack shuf st q = handleDoHPost unpack shuf st w := by
  simp only [handleDoHGet, handleDoHPost]
  rw [if_neg hq, hdec]
  show dohProcess unpack shuf st w = _
  by_cases hlen : w.length ≤ 65536
  · rw [List.take_of_length_le hlen]
    rw [if_neg (fun hc => hw (List.length_eq_zero.mp hc))]
  · have h1 : (w.take 65536).length = 65536 := by
      rw [List.length_take]
      omega
    rw [if_neg (by rw [h1]; omega)]
    simp only [dohProcess, dnsMaxMsgSize]
    rw [if_pos (by omega : w.length > 65535), if_pos (by rw [h1]; omega)]

/-- Witness for C8 (amended) at a concrete query: with the shuffle fixed to
the identity, GET of `"AA"` and POST of `[0]` agree. -/
theorem c8_witness :
    handleDoHGet unpack0 id c8St "AA" = handleDoHPost unpack0 id c8St [0] :=
  c8_get_post_agree unpack0 id c8St "AA" [0] (by decide) (by decide)
    (by decide)

end DnsSrv
